import Mathlib

/-!
# Schedule builder: formal model and verification

A shallow embedding of the schedule-string builder/parser
(`schedule-builder.js`): the 12h/24h time conversions
(`formatTimeForSchedule`, `parse12HourTime`), the formatter
(`formatSchedule`), the parser (`parseExistingSchedule`), the add-slot
click handler, and the conflict checker (`checkScheduleConflicts`).

Strings are modelled as `List Char` internally (`String` at the
boundaries, via `.data`/`String.mk`).  The anchored regular expressions
of the source are modelled as deterministic maximal-munch scanners; for
each regex, the character classes at the decision points are disjoint
(digits vs `':'`, letters vs whitespace, etc.), so the backtracking
regex engine and the maximal-munch scanner accept exactly the same
strings with the same capture groups.
-/

namespace ScheduleBuilder

/-- JavaScript `\s` (whitespace class), restricted to the ASCII whitespace
characters; the full class also holds rarer Unicode space characters that
never occur in schedule strings. -/
def isWsChar (c : Char) : Bool :=
  c = ' ' || c = '\t' || c = '\n' || c = '\r' || c = '\x0b' || c = '\x0c'

/-- Value of a decimal digit character (`none` for a non-digit).
Used to model the `\d` character class and `parseInt(·, 10)`. -/
def digitVal? (c : Char) : Option Nat :=
  if c = '0' then some 0
  else if c = '1' then some 1
  else if c = '2' then some 2
  else if c = '3' then some 3
  else if c = '4' then some 4
  else if c = '5' then some 5
  else if c = '6' then some 6
  else if c = '7' then some 7
  else if c = '8' then some 8
  else if c = '9' then some 9
  else none

/-- The `\d` character class. -/
def isDigitChar (c : Char) : Bool :=
  (digitVal? c).isSome

/-- The `[A-Za-z]` character class. -/
def isLetterChar (c : Char) : Bool :=
  ('A' ≤ c && c ≤ 'Z') || ('a' ≤ c && c ≤ 'z')

/-- The character printed for a decimal digit. -/
def digitToChar (d : Nat) : Char :=
  if d = 0 then '0'
  else if d = 1 then '1'
  else if d = 2 then '2'
  else if d = 3 then '3'
  else if d = 4 then '4'
  else if d = 5 then '5'
  else if d = 6 then '6'
  else if d = 7 then '7'
  else if d = 8 then '8'
  else if d = 9 then '9'
  else '?'

/-- Numeric value of a digit string, most significant digit first
(the value `parseInt` computes on a run of digit characters). -/
def digitsVal (l : List Char) : Nat :=
  l.foldl (fun acc c => 10 * acc + (digitVal? c).getD 0) 0

/-- Decimal rendering of a natural number (JS `Number#toString`), on the
range `n < 1000` that covers every hour value the component produces. -/
def natToChars (n : Nat) : List Char :=
  if n < 10 then [digitToChar n]
  else if n < 100 then [digitToChar (n / 10), digitToChar (n % 10)]
  else [digitToChar (n / 100), digitToChar (n / 10 % 10), digitToChar (n % 10)]

/-- JS `String#padStart(2, '0')`. -/
def padStart2 (l : List Char) : List Char :=
  List.replicate (2 - l.length) '0' ++ l

/-- JS `String#trim` (ASCII whitespace at either end). -/
def trimChars (l : List Char) : List Char :=
  ((l.dropWhile isWsChar).reverse.dropWhile isWsChar).reverse

/-- JS `String#split(sep)` for a one-character separator:
`"".split(sep)` is `[""]`, and every separator occurrence splits. -/
def splitChar (sep : Char) : List Char → List (List Char)
  | [] => [[]]
  | c :: cs =>
    if c = sep then [] :: splitChar sep cs
    else
      match splitChar sep cs with
      | h :: t => (c :: h) :: t
      | [] => [[c]]

/-- JS `parseInt(s, 10)` on the strings this component feeds it
(digit runs, possibly with leading whitespace): leading whitespace is
skipped, then a nonempty maximal digit prefix gives the value;
`none` models `NaN`. -/
def jsParseInt (l : List Char) : Option Nat :=
  let t := l.dropWhile isWsChar
  let ds := t.takeWhile isDigitChar
  if ds = [] then none else some (digitsVal ds)

/-- JS `Number(s)` on time-input values (`"HH:MM"` fragments or junk):
after trimming, the empty string is `0`, a digit run is its value, and
anything else is `NaN` (`none`). -/
def jsNumber (l : List Char) : Option Nat :=
  let t := trimChars l
  if t = [] then some 0
  else if t.all isDigitChar then some (digitsVal t) else none

/-- The anchored regex of `parse12HourTime`,
`/^(\d{1,2}):(\d{2})\s*(AM|PM)$/i`, as a maximal-munch scanner.
Returns (hour value, minute characters, is-PM). -/
def match12 (l : List Char) : Option (Nat × List Char × Bool) :=
  let d1 := l.takeWhile isDigitChar
  let r1 := l.dropWhile isDigitChar
  if d1 = [] || d1.length > 2 then none
  else
    match r1 with
    | ':' :: m1 :: m2 :: r3 =>
      if isDigitChar m1 && isDigitChar m2 then
        match r3.dropWhile isWsChar with
        | [a, m] =>
          if (m = 'M' || m = 'm') && (a = 'A' || a = 'a' || a = 'P' || a = 'p') then
            some (digitsVal d1, [m1, m2], a = 'P' || a = 'p')
          else none
        | _ => none
      else none
    | _ => none

/-- `parse12HourTime`, on character lists: convert a 12-hour time string
to 24-hour `HH:MM`; the empty list signals parse failure. -/
def parse12C (l : List Char) : List Char :=
  match match12 (trimChars l) with
  | none => []
  | some (h, ms, isPM) =>
    let hours :=
      if isPM && decide (h < 12) then h + 12
      else if !isPM && decide (h = 12) then 0
      else h
    padStart2 (natToChars hours) ++ ':' :: ms

/-- `formatTimeForSchedule` (identical to `formatTimeForDisplay`), on
character lists: convert 24-hour `HH:MM` to `H:MM AM/PM`.  A malformed
hour field propagates JS `NaN` into the hour position, and a missing
minute field renders as `"undefined"`, exactly as the template literal
does. -/
def formatTimeC (l : List Char) : List Char :=
  if l = [] then []
  else
    let parts := splitChar ':' l
    let hoursStr := parts.headD []
    let minutes := parts.getD 1 ['u', 'n', 'd', 'e', 'f', 'i', 'n', 'e', 'd']
    match jsParseInt hoursStr with
    | none => 'N' :: 'a' :: 'N' :: ':' :: minutes ++ ' ' :: ['A', 'M']
    | some hour =>
      let suffix := if hour ≥ 12 then ['P', 'M'] else ['A', 'M']
      let displayHour := if hour % 12 = 0 then 12 else hour % 12
      natToChars displayHour ++ ':' :: minutes ++ ' ' :: suffix

/-- `formatTimeForSchedule` at the `String` boundary. -/
def formatTimeForSchedule (t : String) : String :=
  String.mk (formatTimeC t.data)

/-- `parse12HourTime` at the `String` boundary (`""` = failure). -/
def parse12HourTime (t : String) : String :=
  String.mk (parse12C t.data)

/-- A time slot of the schedule model.  `isOvernight` is `none` on slots
produced by the parser (the JS object literal omits the field) and
`some b` on slots produced by the add-slot handler. -/
structure TimeSlot where
  id : String
  days : List String
  startTime : String
  endTime : String
  isOvernight : Option Bool
deriving DecidableEq, Repr

/-- Capture groups of the per-entry regex of `parseExistingSchedule`:
day letters, start time, optional start AM/PM, end time, end AM/PM. -/
structure EntryGroups where
  dayLetters : List Char
  startTok : List Char
  startAmpm : List Char
  endTok : List Char
  endAmpm : List Char
deriving DecidableEq, Repr

/-- Scan a `\d{1,2}:\d{2}` time token; returns the captured characters
and the rest of the input. -/
def matchTimeTok (l : List Char) : Option (List Char × List Char) :=
  let d1 := l.takeWhile isDigitChar
  let r1 := l.dropWhile isDigitChar
  if d1 = [] || d1.length > 2 then none
  else
    match r1 with
    | ':' :: m1 :: m2 :: r2 =>
      if isDigitChar m1 && isDigitChar m2 then some (d1 ++ ':' :: [m1, m2], r2)
      else none
    | _ => none

/-- Scan an optional `(AM|PM)` group (case-insensitive); returns the
group uppercase-as-written (i.e. as captured) and the rest. -/
def matchAmpmOpt (l : List Char) : List Char × List Char :=
  match l with
  | a :: m :: r =>
    if (a = 'A' || a = 'a' || a = 'P' || a = 'p') && (m = 'M' || m = 'm') then
      ([a, m], r)
    else ([], l)
  | _ => ([], l)

/-- The anchored per-entry regex of `parseExistingSchedule`,
`/^([A-Za-z]+)\s+(\d{1,2}:\d{2})\s*(AM|PM)?\s*-\s*(\d{1,2}:\d{2})\s*(AM|PM)$/i`,
as a maximal-munch scanner. -/
def entryMatch (l : List Char) : Option EntryGroups :=
  let ds := l.takeWhile isLetterChar
  let r1 := l.dropWhile isLetterChar
  if ds = [] then none
  else
    let ws := r1.takeWhile isWsChar
    let r2 := r1.dropWhile isWsChar
    if ws = [] then none
    else
      match matchTimeTok r2 with
      | none => none
      | some (t1, r3) =>
        let (a1, r4) := matchAmpmOpt (r3.dropWhile isWsChar)
        match r4.dropWhile isWsChar with
        | '-' :: r5 =>
          match matchTimeTok (r5.dropWhile isWsChar) with
          | none => none
          | some (t2, r6) =>
            match r6.dropWhile isWsChar with
            | [a, m] =>
              if (m = 'M' || m = 'm') && (a = 'A' || a = 'a' || a = 'P' || a = 'p') then
                some ⟨ds, t1, a1, t2, [a, m]⟩
              else none
            | _ => none
        | _ => none

/-- The day-letter scan of `parseExistingSchedule`: left to right over
the uppercased day block, try the two-letter codes `TH`/`SU` first, then
a single letter in `[MTWFS]`, and skip anything else. -/
def dayScan : List Char → List (List Char)
  | [] => []
  | [c] =>
    if c = 'M' || c = 'T' || c = 'W' || c = 'F' || c = 'S' then [[c]] else []
  | c1 :: c2 :: rest =>
    if (c1 = 'T' && c2 = 'H') || (c1 = 'S' && c2 = 'U') then
      [c1, c2] :: dayScan rest
    else if c1 = 'M' || c1 = 'T' || c1 = 'W' || c1 = 'F' || c1 = 'S' then
      [c1] :: dayScan (c2 :: rest)
    else
      dayScan (c2 :: rest)

/-- JS `String#toUpperCase`, on the ASCII letters the day regex admits. -/
def upperStr (s : String) : String :=
  String.mk (s.data.map Char.toUpper)

/-- Process one comma-separated entry: match the entry regex, uppercase
and scan the day block, rebuild the 12-hour time strings (AM/PM appended
only when captured), and parse both through `parse12HourTime`; `none`
when the regex or either time parse fails, in which case the source
logs and skips the entry. -/
def entrySlot (l : List Char) : Option (List String × String × String) :=
  match entryMatch l with
  | none => none
  | some g =>
    let dayString := g.dayLetters.map Char.toUpper
    let days := dayScan dayString
    let startAmpm := g.startAmpm.map Char.toUpper
    let endAmpm := g.endAmpm.map Char.toUpper
    let startStr := trimChars (g.startTok ++ (if startAmpm ≠ [] then ' ' :: startAmpm else []))
    let endStr := trimChars (g.endTok ++ (if endAmpm ≠ [] then ' ' :: endAmpm else []))
    let startTime := parse12C startStr
    let endTime := parse12C endStr
    if startTime ≠ [] && endTime ≠ [] then
      some (days.map String.mk, String.mk startTime, String.mk endTime)
    else none

/-- The `slots.forEach` loop of `parseExistingSchedule`: successful
entries are appended with fresh ids `slot_<counter>`; failed entries are
skipped and do not consume a counter value. -/
def parseLoop : List (List Char) → Nat → List TimeSlot
  | [], _ => []
  | e :: rest, c =>
    match entrySlot e with
    | some (days, st, en) =>
      { id := String.mk ('s' :: 'l' :: 'o' :: 't' :: '_' :: natToChars c),
        days := days, startTime := st, endTime := en,
        isOvernight := none } :: parseLoop rest (c + 1)
    | none => parseLoop rest c

/-- `parseExistingSchedule`: split on commas, trim, drop empty entries,
then process each entry, starting from counter `c₀` (the source's
module-level `timeSlotCounter`). -/
def parseExistingSchedule (s : String) (c₀ : Nat) : List TimeSlot :=
  let entries := ((splitChar ',' s.data).map trimChars).filter (· ≠ [])
  parseLoop entries c₀

/-- The `(days, startTime, endTime)` content of a slot (ids and the
overnight flag are a UI-session concern, not part of the round trip). -/
def slotTuple (s : TimeSlot) : List String × String × String :=
  (s.days, s.startTime, s.endTime)

/-- The `dayOrder` table of `formatSchedule`; unknown codes get key `7`
(for them the JS comparator returns `NaN` and the sort order is
implementation-defined — no claim depends on that case). -/
def dayKey (d : String) : Nat :=
  if d = "M" then 0
  else if d = "T" then 1
  else if d = "W" then 2
  else if d = "Th" then 3
  else if d = "F" then 4
  else if d = "S" then 5
  else if d = "Su" then 6
  else 7

/-- Comparator order used by `slot.days.sort((a, b) => dayOrder[a] - dayOrder[b])`. -/
def dayLe (a b : String) : Prop :=
  dayKey a ≤ dayKey b

instance : DecidableRel dayLe := fun a b =>
  inferInstanceAs (Decidable (dayKey a ≤ dayKey b))

instance : IsTotal String dayLe :=
  ⟨fun a b => Nat.le_total (dayKey a) (dayKey b)⟩

instance : IsTrans String dayLe :=
  ⟨fun _ _ _ => Nat.le_trans⟩

/-- `slot.days.sort(...)`: a stable sort by `dayOrder` key (JS
`Array#sort` is stable; on distinct canonical keys any stable sort
computes the same list). -/
def sortDays (days : List String) : List String :=
  days.insertionSort dayLe

/-- `arr.join('')` for the day codes of one slot. -/
def dayConcat (days : List String) : List Char :=
  (days.map String.data).flatten

/-- `arr.join(sep)` (JS array join with a separator string). -/
def joinSep (sep : List Char) : List (List Char) → List Char
  | [] => []
  | [x] => x
  | x :: y :: rest => x ++ sep ++ joinSep sep (y :: rest)

/-- The string `formatSchedule` renders for one (already day-sorted)
slot: `<days> <start 12h>-<end 12h>`. -/
def entryChars (s : TimeSlot) : List Char :=
  dayConcat s.days ++ ' ' :: (formatTimeC s.startTime.data ++ '-' :: formatTimeC s.endTime.data)

/-- Replace a slot's days by their day-order sort — the in-place
mutation `slot.days.sort(...)` performs inside `formatSchedule`. -/
def sortSlot (s : TimeSlot) : TimeSlot :=
  { s with days := sortDays s.days }

/-- `formatSchedule`: returns the formatted string *and* the slot list
as it stands after the call — the source sorts each slot's `days` array
in place while formatting, so the call is not effect-free. -/
def formatSchedule (slots : List TimeSlot) : String × List TimeSlot :=
  if slots = [] then ("", slots)
  else
    let post := slots.map sortSlot
    (String.mk (joinSep [',', ' '] (post.map entryChars)), post)

/-- The mutable state the add-slot click handler works on: the slot
list, the working day-selection set (in insertion order, as
`Array.from(selectedDays)` enumerates it), and the id counter. -/
structure BuilderState where
  timeSlots : List TimeSlot
  selectedDays : List String
  counter : Nat
deriving DecidableEq, Repr

/-- `startTime.split(':').map(Number)` destructured to
`[hours, minutes]` and combined to minutes-of-day; `none` models the
`NaN` that a missing or non-numeric field propagates. -/
def totalMinutes (t : List Char) : Option Nat :=
  let parts := splitChar ':' t
  match jsNumber (parts.headD []), jsNumber (parts.getD 1 ['x']) with
  | some h, some m => some (h * 60 + m)
  | _, _ => none

/-- JS `<` on possibly-NaN numbers (any comparison with NaN is false). -/
def ltNaN (a b : Option Nat) : Bool :=
  match a, b with
  | some x, some y => decide (x < y)
  | _, _ => false

/-- JS `<=` on possibly-NaN numbers. -/
def leNaN (a b : Option Nat) : Bool :=
  match a, b with
  | some x, some y => decide (x ≤ y)
  | _, _ => false

/-- The `addTimeBtn` click handler: trim both time inputs, run the three
validations in source order (missing time, no day selected, non-overnight
end not after start), and on success append the slot, bump the counter
and clear the day selection.  The second component is the warning
message passed to `showWarningNotification` (`none` on success); the
handler never throws. -/
def addTime (st : BuilderState) (startRaw endRaw : String) : BuilderState × Option String :=
  let startTime := trimChars startRaw.data
  let endTime := trimChars endRaw.data
  if startTime = [] || endTime = [] then
    (st, some "Please select both start and end times.")
  else if st.selectedDays.length = 0 then
    (st, some "Please select at least one day.")
  else
    let startTotalMinutes := totalMinutes startTime
    let endTotalMinutes := totalMinutes endTime
    let isOvernight := ltNaN endTotalMinutes startTotalMinutes
    if !isOvernight && leNaN endTotalMinutes startTotalMinutes then
      (st, some "End time must be after start time.")
    else
      ({ timeSlots := st.timeSlots ++
           [{ id := String.mk ('s' :: 'l' :: 'o' :: 't' :: '_' :: natToChars st.counter),
              days := st.selectedDays,
              startTime := String.mk startTime,
              endTime := String.mk endTime,
              isOvernight := some isOvernight }],
         selectedDays := [],
         counter := st.counter + 1 },
       none)

/-- Outcome of the `fetch` + `response.json()` pair inside
`checkScheduleConflicts`: either a parsed JSON body `{success, message}`
or a rejection anywhere along the way (network error or JSON parse
error — both land in the same `catch`). -/
inductive NetOutcome where
  | ok (success : Bool) (message : Option String)
  | err
deriving DecidableEq, Repr

/-- Result contract of `checkScheduleConflicts`. -/
structure ConflictResult where
  hasConflict : Bool
  message : String
deriving DecidableEq, Repr

/-- `checkScheduleConflicts`, parameterised by the transport outcome.
The second component records whether a network request was issued.
The function never rejects: the `catch` maps any failure to
`hasConflict: false` with a diagnostic message. -/
def checkScheduleConflicts (slots : List TimeSlot) (net : NetOutcome) :
    ConflictResult × Bool :=
  if slots.length = 0 then (⟨false, ""⟩, false)
  else
    match net with
    | .ok success message => (⟨!success, message.getD ""⟩, true)
    | .err => (⟨false, "Error checking schedule conflicts"⟩, true)

/-- The canonical day codes of the builder UI (the `data-day` values the
day checkboxes carry, and the codes the formatter's `dayOrder` knows). -/
def canonicalDayCodes : List String :=
  ["M", "T", "W", "Th", "F", "S", "Su"]

/-- The uppercased character blocks of the canonical day codes — exactly
the tokens the day-letter scan of the parser can emit. -/
def upperCodes : List (List Char) :=
  [['M'], ['T'], ['W'], ['T', 'H'], ['F'], ['S'], ['S', 'U']]

/-- A well-formed 24-hour `HH:MM` value, as produced by the
`<input type="time">` fields: two digits, a colon, two digits, hour at
most 23, minute at most 59. -/
def validHHMM (t : String) : Bool :=
  match t.data with
  | [c1, c2, c, c3, c4] =>
    c = ':' && isDigitChar c1 && isDigitChar c2 && isDigitChar c3 && isDigitChar c4 &&
      decide (10 * (digitVal? c1).getD 0 + (digitVal? c2).getD 0 ≤ 23) &&
      decide (10 * (digitVal? c3).getD 0 + (digitVal? c4).getD 0 ≤ 59)
  | _ => false

/-- Minute-of-day value of a well-formed `HH:MM` string (0 otherwise). -/
def hhmmVal (t : String) : Nat :=
  match t.data with
  | [c1, c2, _, c3, c4] =>
    (10 * (digitVal? c1).getD 0 + (digitVal? c2).getD 0) * 60 +
      (10 * (digitVal? c3).getD 0 + (digitVal? c4).getD 0)
  | _ => 0

/-- A slot as built by valid `addSlot` calls: at least one day, days
drawn without repetition from the canonical codes, and well-formed
start/end times. -/
def ValidSlot (s : TimeSlot) : Prop :=
  s.days ≠ [] ∧ s.days.Nodup ∧ (∀ d ∈ s.days, d ∈ canonicalDayCodes) ∧
    validHHMM s.startTime = true ∧ validHHMM s.endTime = true

instance (s : TimeSlot) : Decidable (ValidSlot s) := by
  unfold ValidSlot; infer_instance

/-- Strict day-order comparison (used to state that the formatter's day
order is fully determined on distinct canonical codes). -/
def dayLt (a b : String) : Prop :=
  dayKey a < dayKey b

instance : DecidableRel dayLt := fun a b =>
  inferInstanceAs (Decidable (dayKey a < dayKey b))

instance : IsAntisymm String dayLt :=
  ⟨fun _ _ h1 h2 => absurd (Nat.lt_trans h1 h2) (Nat.lt_irrefl _)⟩

/-! ## Helper lemmas: digits and character classes -/

theorem digitVal_le_nine {c : Char} {d : Nat} (h : digitVal? c = some d) : d ≤ 9 := by
  unfold digitVal? at h
  repeat' split at h
  all_goals first
    | exact Option.noConfusion h
    | (injection h with h; omega)

theorem digitToChar_digitVal {c : Char} {d : Nat} (h : digitVal? c = some d) :
    digitToChar d = c := by
  unfold digitVal? at h
  repeat' split at h
  all_goals first
    | exact Option.noConfusion h
    | (injection h with h; subst_vars; decide)

theorem digitVal_digitToChar : ∀ d < 10, digitVal? (digitToChar d) = some d := by
  decide

theorem isDigit_digitToChar : ∀ d < 10, isDigitChar (digitToChar d) = true := by
  decide

theorem digit_char_classes : ∀ d < 10,
    isWsChar (digitToChar d) = false ∧ isLetterChar (digitToChar d) = false ∧
      digitToChar d ≠ ':' ∧ digitToChar d ≠ ',' ∧ digitToChar d ≠ '-' := by
  decide

theorem digit_classes {c : Char} (h : isDigitChar c = true) :
    isWsChar c = false ∧ isLetterChar c = false ∧ c ≠ ':' ∧ c ≠ ',' ∧ c ≠ '-' := by
  unfold isDigitChar at h
  obtain ⟨d, hd⟩ := Option.isSome_iff_exists.mp h
  have h9 := digitVal_le_nine hd
  have := digit_char_classes d (by omega)
  rw [digitToChar_digitVal hd] at this
  exact this

theorem digitsVal_pair {a b : Char} {da db : Nat}
    (ha : digitVal? a = some da) (hb : digitVal? b = some db) :
    digitsVal [a, b] = 10 * da + db := by
  simp [digitsVal, ha, hb]

/-! ## Helper lemmas: takeWhile / dropWhile / trim / split -/

theorem takeWhile_all {p : Char → Bool} {xs : List Char} (h : ∀ a ∈ xs, p a = true) :
    xs.takeWhile p = xs := by
  induction xs with
  | nil => rfl
  | cons a t ih =>
    simp [List.takeWhile_cons, h a (by simp), ih fun x hx => h x (by simp [hx])]

theorem dropWhile_all {p : Char → Bool} {xs : List Char} (h : ∀ a ∈ xs, p a = true) :
    xs.dropWhile p = [] := by
  induction xs with
  | nil => rfl
  | cons a t ih =>
    simp [List.dropWhile_cons, h a (by simp), ih fun x hx => h x (by simp [hx])]

theorem takeWhile_app {p : Char → Bool} {xs : List Char} {y : Char} (ys : List Char)
    (h1 : ∀ a ∈ xs, p a = true) (h2 : p y = false) :
    (xs ++ y :: ys).takeWhile p = xs := by
  induction xs with
  | nil => simp [List.takeWhile_cons, h2]
  | cons a t ih =>
    simp [List.cons_append, List.takeWhile_cons, h1 a (by simp),
      ih fun x hx => h1 x (by simp [hx])]

theorem dropWhile_app {p : Char → Bool} {xs : List Char} {y : Char} (ys : List Char)
    (h1 : ∀ a ∈ xs, p a = true) (h2 : p y = false) :
    (xs ++ y :: ys).dropWhile p = y :: ys := by
  induction xs with
  | nil => simp [List.dropWhile_cons, h2]
  | cons a t ih =>
    simp [List.cons_append, List.dropWhile_cons, h1 a (by simp),
      ih fun x hx => h1 x (by simp [hx])]

theorem dropWhile_head_false {p : Char → Bool} {l : List Char}
    (h : ∀ c, l.head? = some c → p c = false) : l.dropWhile p = l := by
  cases l with
  | nil => rfl
  | cons a t => simp [List.dropWhile_cons, h a rfl]

theorem trimChars_noop {l : List Char}
    (h1 : ∀ c, l.head? = some c → isWsChar c = false)
    (h2 : ∀ c, l.getLast? = some c → isWsChar c = false) : trimChars l = l := by
  unfold trimChars
  rw [dropWhile_head_false h1]
  rw [dropWhile_head_false, List.reverse_reverse]
  intro c hc
  rw [List.head?_reverse] at hc
  exact h2 c hc

theorem trimChars_cons_space (l : List Char) : trimChars (' ' :: l) = trimChars l := by
  unfold trimChars
  simp [List.dropWhile_cons, isWsChar]

theorem splitChar_ne_nil (sep : Char) (l : List Char) : splitChar sep l ≠ [] := by
  induction l with
  | nil => simp [splitChar]
  | cons c cs ih =>
    simp only [splitChar]
    split
    · simp
    · split <;> simp_all

theorem splitChar_no_sep {sep : Char} {l : List Char} (h : sep ∉ l) :
    splitChar sep l = [l] := by
  induction l with
  | nil => rfl
  | cons c cs ih =>
    have hc : c ≠ sep := fun he => h (by simp [he])
    simp only [splitChar, if_neg (fun he => hc he)]
    rw [ih (fun hm => h (by simp [hm]))]

theorem splitChar_append {sep : Char} {xs : List Char} (ys : List Char) (h : sep ∉ xs) :
    splitChar sep (xs ++ sep :: ys) = xs :: splitChar sep ys := by
  induction xs with
  | nil => simp [splitChar]
  | cons c cs ih =>
    have hc : c ≠ sep := fun he => h (by simp [he])
    simp only [List.cons_append, splitChar, if_neg (fun he => hc he), List.append_eq]
    rw [ih (fun hm => h (by simp [hm]))]

theorem splitChar_cons {sep c : Char} (l : List Char) (h : c ≠ sep) {hd : List Char}
    {tl : List (List Char)} (hs : splitChar sep l = hd :: tl) :
    splitChar sep (c :: l) = (c :: hd) :: tl := by
  simp only [splitChar, if_neg (fun he => h he), hs]

/-! ## Helper lemmas: decimal rendering -/

theorem natToChars_lt10 {n : Nat} (h : n < 10) : natToChars n = [digitToChar n] := by
  unfold natToChars
  rw [if_pos h]

theorem natToChars_two {n : Nat} (h1 : 10 ≤ n) (h2 : n < 100) :
    natToChars n = [digitToChar (n / 10), digitToChar (n % 10)] := by
  unfold natToChars
  rw [if_neg (by omega), if_pos h2]

theorem natToChars_digits {n : Nat} (h : n < 100) :
    ∀ c ∈ natToChars n, isDigitChar c = true := by
  intro c hc
  by_cases h10 : n < 10
  · rw [natToChars_lt10 h10] at hc
    simp at hc
    subst hc
    exact isDigit_digitToChar n h10
  · rw [natToChars_two (by omega) h] at hc
    simp at hc
    rcases hc with rfl | rfl
    · exact isDigit_digitToChar _ (by omega)
    · exact isDigit_digitToChar _ (by omega)

theorem natToChars_ne_nil {n : Nat} (h : n < 100) : natToChars n ≠ [] := by
  by_cases h10 : n < 10
  · rw [natToChars_lt10 h10]; simp
  · rw [natToChars_two (by omega) h]; simp

theorem natToChars_len {n : Nat} (h : n < 100) : (natToChars n).length ≤ 2 := by
  by_cases h10 : n < 10
  · rw [natToChars_lt10 h10]; simp
  · rw [natToChars_two (by omega) h]; simp

theorem digitsVal_cons (c : Char) (l : List Char) :
    digitsVal (c :: l) = l.foldl (fun acc x => 10 * acc + (digitVal? x).getD 0)
      ((digitVal? c).getD 0) := by
  simp [digitsVal]

theorem digitsVal_natToChars {n : Nat} (h : n < 100) : digitsVal (natToChars n) = n := by
  by_cases h10 : n < 10
  · rw [natToChars_lt10 h10]
    simp [digitsVal, digitVal_digitToChar n (by omega)]
  · rw [natToChars_two (by omega) h]
    simp [digitsVal, digitVal_digitToChar (n / 10) (by omega),
      digitVal_digitToChar (n % 10) (by omega)]
    omega

theorem padStart2_natToChars {d1 d2 : Nat} {c1 c2 : Char}
    (h1 : digitVal? c1 = some d1) (h2 : digitVal? c2 = some d2) :
    padStart2 (natToChars (10 * d1 + d2)) = [c1, c2] := by
  have hd1 := digitVal_le_nine h1
  have hd2 := digitVal_le_nine h2
  by_cases hz : d1 = 0
  · subst hz
    rw [natToChars_lt10 (by omega)]
    have : digitToChar (10 * 0 + d2) = c2 := by
      rw [show 10 * 0 + d2 = d2 by omega]; exact digitToChar_digitVal h2
    rw [this]
    have : digitToChar 0 = c1 := digitToChar_digitVal h1
    simp [padStart2, ← this]
    rfl
  · rw [natToChars_two (by omega) (by omega)]
    have e1 : (10 * d1 + d2) / 10 = d1 := by omega
    have e2 : (10 * d1 + d2) % 10 = d2 := by omega
    rw [e1, e2, digitToChar_digitVal h1, digitToChar_digitVal h2]
    rfl

/-! ## Helper lemmas: the 12-hour time regex -/

theorem match12_build {hs : List Char} {m1 m2 : Char} {sfx : List Char}
    (hne : hs ≠ []) (hlen : hs.length ≤ 2) (hds : ∀ c ∈ hs, isDigitChar c = true)
    (hm1 : isDigitChar m1 = true) (hm2 : isDigitChar m2 = true)
    (hsfx : sfx = ['A', 'M'] ∨ sfx = ['P', 'M']) :
    match12 (hs ++ ':' :: m1 :: m2 :: ' ' :: sfx) =
      some (digitsVal hs, [m1, m2], decide (sfx = ['P', 'M'])) := by
  unfold match12
  rw [takeWhile_app _ hds (by decide), dropWhile_app _ hds (by decide)]
  rw [if_neg (by simp [hne]; omega)]
  simp only [hm1, hm2, Bool.and_self, if_true]
  have hws : List.dropWhile isWsChar (' ' :: sfx) = sfx := by
    rcases hsfx with rfl | rfl <;> decide
  rw [hws]
  rcases hsfx with rfl | rfl <;> simp

theorem match12_no_suffix {hs : List Char} {m1 m2 : Char}
    (hds : ∀ c ∈ hs, isDigitChar c = true) :
    match12 (hs ++ [':', m1, m2]) = none := by
  unfold match12
  by_cases hne : hs = []
  · subst hne
    simp [List.takeWhile_cons, show isDigitChar ':' = false from by decide]
  · rw [takeWhile_app _ hds (by decide), dropWhile_app _ hds (by decide)]
    by_cases hlen : hs.length > 2
    · rw [if_pos (by simp [hlen])]
    · rw [if_neg (by simp [hne]; omega)]
      split <;> simp_all

theorem trimChars_digit_block {hs : List Char} {m1 m2 : Char}
    (hds : ∀ c ∈ hs, isDigitChar c = true) (hm2 : isDigitChar m2 = true) :
    trimChars (hs ++ [':', m1, m2]) = hs ++ [':', m1, m2] := by
  apply trimChars_noop
  · intro c hc
    cases hs with
    | nil =>
      simp at hc
      rw [← hc]
      decide
    | cons a t =>
      simp at hc
      rw [← hc]
      exact (digit_classes (hds a (by simp))).1
  · intro c hc
    rw [show hs ++ [':', m1, m2] = (hs ++ [':', m1]) ++ [m2] by simp, List.getLast?_concat] at hc
    cases hc
    exact (digit_classes hm2).1

/-- Start-time sub-token with no AM/PM: `parse12HourTime` fails. -/
theorem parse12C_no_suffix {hs : List Char} {m1 m2 : Char}
    (hds : ∀ c ∈ hs, isDigitChar c = true) (hm2 : isDigitChar m2 = true) :
    parse12C (hs ++ [':', m1, m2]) = [] := by
  unfold parse12C
  rw [trimChars_digit_block hds hm2, match12_no_suffix hds]

/-! ## Helper lemmas: formatTime and the time round trip -/

theorem valid_hhmm_shape {t : String} (h : validHHMM t = true) :
    ∃ c1 c2 c3 c4 d1 d2 d3 d4, t.data = [c1, c2, ':', c3, c4] ∧
      digitVal? c1 = some d1 ∧ digitVal? c2 = some d2 ∧
      digitVal? c3 = some d3 ∧ digitVal? c4 = some d4 ∧
      10 * d1 + d2 ≤ 23 ∧ 10 * d3 + d4 ≤ 59 := by
  unfold validHHMM at h
  split at h
  case h_2 => exact absurd h (by simp)
  case h_1 c1 c2 c c3 c4 heq =>
    simp only [Bool.and_eq_true, decide_eq_true_eq] at h
    obtain ⟨⟨⟨⟨⟨⟨hc, h1⟩, h2⟩, h3⟩, h4⟩, hb1⟩, hb2⟩ := h
    obtain ⟨d1, hd1⟩ := Option.isSome_iff_exists.mp h1
    obtain ⟨d2, hd2⟩ := Option.isSome_iff_exists.mp h2
    obtain ⟨d3, hd3⟩ := Option.isSome_iff_exists.mp h3
    obtain ⟨d4, hd4⟩ := Option.isSome_iff_exists.mp h4
    refine ⟨c1, c2, c3, c4, d1, d2, d3, d4, ?_, hd1, hd2, hd3, hd4, ?_, ?_⟩
    · rw [heq, hc]
    · simp [hd1, hd2] at hb1; exact hb1
    · simp [hd3, hd4] at hb2; exact hb2

theorem formatTimeC_valid {c1 c2 c3 c4 : Char} {d1 d2 : Nat}
    (h1 : digitVal? c1 = some d1) (h2 : digitVal? c2 = some d2)
    (h3 : isDigitChar c3 = true) (h4 : isDigitChar c4 = true) :
    formatTimeC [c1, c2, ':', c3, c4] =
      natToChars (if (10 * d1 + d2) % 12 = 0 then 12 else (10 * d1 + d2) % 12) ++
        ':' :: c3 :: c4 :: ' ' ::
          (if 10 * d1 + d2 ≥ 12 then ['P', 'M'] else ['A', 'M']) := by
  have e1 : isDigitChar c1 = true := by simp [isDigitChar, h1]
  have e2 : isDigitChar c2 = true := by simp [isDigitChar, h2]
  have hsplit : splitChar ':' [c1, c2, ':', c3, c4] = [[c1, c2], [c3, c4]] := by
    rw [show ([c1, c2, ':', c3, c4] : List Char) = [c1, c2] ++ ':' :: [c3, c4] by simp]
    rw [splitChar_append _ (by
      intro hmem
      simp at hmem
      rcases hmem with rfl | rfl
      · exact absurd rfl (digit_classes e1).2.2.1
      · exact absurd rfl (digit_classes e2).2.2.1)]
    rw [splitChar_no_sep (by
      intro hmem
      simp at hmem
      rcases hmem with rfl | rfl
      · exact absurd rfl (digit_classes h3).2.2.1
      · exact absurd rfl (digit_classes h4).2.2.1)]
  have hparse : jsParseInt [c1, c2] = some (10 * d1 + d2) := by
    simp only [jsParseInt]
    rw [dropWhile_head_false (by intro c hc; cases hc; exact (digit_classes e1).1)]
    rw [takeWhile_all (by intro a ha; simp at ha; rcases ha with rfl | rfl <;> assumption)]
    rw [if_neg (by simp), digitsVal_pair h1 h2]
  unfold formatTimeC
  rw [if_neg (by simp)]
  simp only [hsplit, List.headD, hparse]
  simp [List.getD]

theorem parse12C_of_format {dh : Nat} {c3 c4 : Char} {sfx : List Char}
    (hdh1 : 1 ≤ dh) (hdh2 : dh ≤ 12)
    (h3 : isDigitChar c3 = true) (h4 : isDigitChar c4 = true)
    (hsfx : sfx = ['A', 'M'] ∨ sfx = ['P', 'M']) :
    parse12C (natToChars dh ++ ':' :: c3 :: c4 :: ' ' :: sfx) =
      padStart2 (natToChars
        (if decide (sfx = ['P', 'M']) && decide (dh < 12) then dh + 12
         else if !decide (sfx = ['P', 'M']) && decide (dh = 12) then 0 else dh)) ++
        ':' :: [c3, c4] := by
  have hdigits := natToChars_digits (n := dh) (by omega)
  have hne := natToChars_ne_nil (n := dh) (by omega)
  have hlen := natToChars_len (n := dh) (by omega)
  have hval := digitsVal_natToChars (n := dh) (by omega)
  have hhead : ∀ c, (natToChars dh ++ ':' :: c3 :: c4 :: ' ' :: sfx).head? = some c →
      isWsChar c = false := by
    intro c hc
    cases he : natToChars dh with
    | nil => exact absurd he hne
    | cons a t =>
      rw [he] at hc
      simp at hc
      rw [← hc]
      exact (digit_classes (hdigits a (by rw [he]; simp))).1
  rcases hsfx with rfl | rfl
  · unfold parse12C
    rw [trimChars_noop hhead (by
      intro c hc
      rw [show natToChars dh ++ ':' :: c3 :: c4 :: ' ' :: ['A', 'M']
            = (natToChars dh ++ [':', c3, c4, ' ', 'A']) ++ ['M'] by simp,
        List.getLast?_concat] at hc
      cases hc
      decide)]
    rw [match12_build hne hlen hdigits h3 h4 (Or.inl rfl), hval]
  · unfold parse12C
    rw [trimChars_noop hhead (by
      intro c hc
      rw [show natToChars dh ++ ':' :: c3 :: c4 :: ' ' :: ['P', 'M']
            = (natToChars dh ++ [':', c3, c4, ' ', 'P']) ++ ['M'] by simp,
        List.getLast?_concat] at hc
      cases hc
      decide)]
    rw [match12_build hne hlen hdigits h3 h4 (Or.inr rfl), hval]

theorem decide_am_pm : decide ((['A', 'M'] : List Char) = ['P', 'M']) = false := by
  decide

theorem decide_pm_pm : decide ((['P', 'M'] : List Char) = ['P', 'M']) = true := by
  decide

theorem hoursAM (dh : Nat) :
    (if decide ((['A', 'M'] : List Char) = ['P', 'M']) && decide (dh < 12) then dh + 12
     else if !decide ((['A', 'M'] : List Char) = ['P', 'M']) && decide (dh = 12) then 0
     else dh) = if dh = 12 then 0 else dh := by
  simp [decide_am_pm]

theorem hoursPM (dh : Nat) :
    (if decide ((['P', 'M'] : List Char) = ['P', 'M']) && decide (dh < 12) then dh + 12
     else if !decide ((['P', 'M'] : List Char) = ['P', 'M']) && decide (dh = 12) then 0
     else dh) = if dh < 12 then dh + 12 else dh := by
  simp [decide_pm_pm]

theorem roundtrip_time {c1 c2 c3 c4 : Char} {d1 d2 : Nat}
    (h1 : digitVal? c1 = some d1) (h2 : digitVal? c2 = some d2)
    (h3 : isDigitChar c3 = true) (h4 : isDigitChar c4 = true)
    (hle : 10 * d1 + d2 ≤ 23) :
    parse12C (formatTimeC [c1, c2, ':', c3, c4]) = [c1, c2, ':', c3, c4] := by
  rw [formatTimeC_valid h1 h2 h3 h4]
  set n := 10 * d1 + d2 with hn
  by_cases hz : n % 12 = 0
  · rw [if_pos hz]
    by_cases hge : n ≥ 12
    · rw [if_pos hge]
      rw [parse12C_of_format (by omega) (by omega) h3 h4 (Or.inr rfl), hoursPM]
      rw [if_neg (show ¬(12 < 12) by omega)]
      rw [show (12 : Nat) = n by omega, hn, padStart2_natToChars h1 h2]
      simp
    · rw [if_neg hge]
      rw [parse12C_of_format (by omega) (by omega) h3 h4 (Or.inl rfl), hoursAM]
      rw [if_pos rfl]
      rw [show (0 : Nat) = n by omega, hn, padStart2_natToChars h1 h2]
      simp
  · rw [if_neg hz]
    by_cases hge : n ≥ 12
    · rw [if_pos hge]
      rw [parse12C_of_format (by omega) (by omega) h3 h4 (Or.inr rfl), hoursPM]
      rw [if_pos (show n % 12 < 12 by omega)]
      rw [show n % 12 + 12 = n by omega, hn, padStart2_natToChars h1 h2]
      simp
    · rw [if_neg hge]
      rw [parse12C_of_format (by omega) (by omega) h3 h4 (Or.inl rfl), hoursAM]
      rw [if_neg (show ¬(n % 12 = 12) by omega)]
      rw [show n % 12 = n by omega, hn, padStart2_natToChars h1 h2]
      simp

/-! ## Helper lemmas: the per-entry regex -/

theorem head_not_ws_of_digits {l R : List Char} (hne : l ≠ [])
    (hd : ∀ c ∈ l, isDigitChar c = true) :
    ∀ c, (l ++ R).head? = some c → isWsChar c = false := by
  intro c hc
  cases l with
  | nil => exact absurd rfl hne
  | cons a t =>
    simp at hc
    rw [← hc]
    exact (digit_classes (hd a (by simp))).1

theorem takeWhile_ws_space {T : List Char}
    (h : ∀ c, T.head? = some c → isWsChar c = false) :
    List.takeWhile isWsChar (' ' :: T) = [' '] := by
  rw [List.takeWhile_cons]
  simp only [show isWsChar ' ' = true from rfl, if_true]
  cases T with
  | nil => rfl
  | cons a t =>
    rw [List.takeWhile_cons]
    simp [h a rfl]

theorem dropWhile_ws_space {T : List Char}
    (h : ∀ c, T.head? = some c → isWsChar c = false) :
    List.dropWhile isWsChar (' ' :: T) = T := by
  rw [List.dropWhile_cons]
  simp only [show isWsChar ' ' = true from rfl, if_true]
  exact dropWhile_head_false h

theorem matchTimeTok_build {hs : List Char} {m1 m2 : Char} (R : List Char)
    (hne : hs ≠ []) (hlen : hs.length ≤ 2) (hds : ∀ c ∈ hs, isDigitChar c = true)
    (hm1 : isDigitChar m1 = true) (hm2 : isDigitChar m2 = true) :
    matchTimeTok (hs ++ ':' :: m1 :: m2 :: R) = some (hs ++ ':' :: [m1, m2], R) := by
  unfold matchTimeTok
  rw [takeWhile_app _ hds (by decide), dropWhile_app _ hds (by decide)]
  rw [if_neg (by simp [hne]; omega)]
  simp [hm1, hm2]

theorem matchAmpmOpt_dash (T : List Char) : matchAmpmOpt ('-' :: T) = ([], '-' :: T) := by
  cases T with
  | nil => rfl
  | cons a t => simp [matchAmpmOpt]

theorem dropWhile_ws_dash (T : List Char) :
    List.dropWhile isWsChar ('-' :: T) = '-' :: T := by
  rw [List.dropWhile_cons]
  simp [isWsChar]

theorem entryMatch_build
    {ds hs1 hs2 a1 a2 : List Char} {m1 m2 m3 m4 : Char}
    (hds : ds ≠ []) (hdsL : ∀ c ∈ ds, isLetterChar c = true)
    (hne1 : hs1 ≠ []) (hlen1 : hs1.length ≤ 2) (hd1 : ∀ c ∈ hs1, isDigitChar c = true)
    (hm1 : isDigitChar m1 = true) (hm2 : isDigitChar m2 = true)
    (hne2 : hs2 ≠ []) (hlen2 : hs2.length ≤ 2) (hd2 : ∀ c ∈ hs2, isDigitChar c = true)
    (hm3 : isDigitChar m3 = true) (hm4 : isDigitChar m4 = true)
    (ha1 : a1 = [] ∨ a1 = ['A', 'M'] ∨ a1 = ['P', 'M'])
    (ha2 : a2 = ['A', 'M'] ∨ a2 = ['P', 'M']) :
    entryMatch (ds ++ ' ' :: (hs1 ++ ':' :: m1 :: m2 ::
        ((if a1 = [] then [] else ' ' :: a1) ++ '-' ::
          (hs2 ++ ':' :: m3 :: m4 :: ' ' :: a2)))) =
      some ⟨ds, hs1 ++ ':' :: [m1, m2], a1, hs2 ++ ':' :: [m3, m4], a2⟩ := by
  unfold entryMatch
  rw [takeWhile_app _ hdsL (by decide), dropWhile_app _ hdsL (by decide), if_neg hds]
  rw [takeWhile_ws_space (head_not_ws_of_digits hne1 hd1),
    dropWhile_ws_space (head_not_ws_of_digits hne1 hd1)]
  rw [if_neg (by simp)]
  rw [matchTimeTok_build _ hne1 hlen1 hd1 hm1 hm2]
  have hdrop2 : List.dropWhile isWsChar (hs2 ++ ':' :: m3 :: m4 :: ' ' :: a2) =
      hs2 ++ ':' :: m3 :: m4 :: ' ' :: a2 :=
    dropWhile_head_false (head_not_ws_of_digits hne2 hd2)
  have hend : ∀ (r : List Char), r = hs2 ++ ':' :: m3 :: m4 :: ' ' :: a2 →
      (match matchTimeTok (r.dropWhile isWsChar) with
        | none => none
        | some (t2, r6) =>
          match r6.dropWhile isWsChar with
          | [a, m] =>
            if (m = 'M' || m = 'm') && (a = 'A' || a = 'a' || a = 'P' || a = 'p') then
              some (⟨ds, hs1 ++ ':' :: [m1, m2], a1, t2, [a, m]⟩ : EntryGroups)
            else none
          | _ => none) =
        some ⟨ds, hs1 ++ ':' :: [m1, m2], a1, hs2 ++ ':' :: [m3, m4], a2⟩ := by
    intro r hr
    subst hr
    rw [hdrop2, matchTimeTok_build _ hne2 hlen2 hd2 hm3 hm4]
    rcases ha2 with rfl | rfl <;> simp [List.dropWhile_cons, isWsChar]
  rcases ha1 with rfl | rfl | rfl
  · rw [if_pos rfl]
    simp only [List.nil_append]
    rw [dropWhile_ws_dash, matchAmpmOpt_dash, dropWhile_ws_dash]
    exact hend _ rfl
  · rw [if_neg (by simp)]
    simp only [List.cons_append, List.nil_append]
    rw [dropWhile_ws_space (by intro c hc; cases hc; decide)]
    rw [show matchAmpmOpt ('A' :: 'M' :: '-' :: (hs2 ++ ':' :: m3 :: m4 :: ' ' :: a2)) =
      (['A', 'M'], '-' :: (hs2 ++ ':' :: m3 :: m4 :: ' ' :: a2)) by simp [matchAmpmOpt]]
    rw [dropWhile_ws_dash]
    exact hend _ rfl
  · rw [if_neg (by simp)]
    simp only [List.cons_append, List.nil_append]
    rw [dropWhile_ws_space (by intro c hc; cases hc; decide)]
    rw [show matchAmpmOpt ('P' :: 'M' :: '-' :: (hs2 ++ ':' :: m3 :: m4 :: ' ' :: a2)) =
      (['P', 'M'], '-' :: (hs2 ++ ':' :: m3 :: m4 :: ' ' :: a2)) by simp [matchAmpmOpt]]
    rw [dropWhile_ws_dash]
    exact hend _ rfl

/-! ## Helper lemmas: the day-letter scan -/

theorem upperCode_ne_nil {cd : List Char} (h : cd ∈ upperCodes) : cd ≠ [] := by
  fin_cases h <;> simp

theorem codes_nil_of_flatten_nil {codes : List (List Char)}
    (h : ∀ cd ∈ codes, cd ∈ upperCodes) (hf : codes.flatten = []) : codes = [] := by
  cases codes with
  | nil => rfl
  | cons cd r =>
    exfalso
    simp only [List.flatten_cons, List.append_eq_nil] at hf
    exact upperCode_ne_nil (h cd (by simp)) hf.1

theorem flatten_firstOk {codes : List (List Char)}
    (h : ∀ cd ∈ codes, cd ∈ upperCodes) :
    ∀ c, codes.flatten.head? = some c →
      (c = 'M' ∨ c = 'T' ∨ c = 'W' ∨ c = 'F' ∨ c = 'S') := by
  induction codes with
  | nil => intro c hc; simp at hc
  | cons cd r ih =>
    intro c hc
    simp only [List.flatten_cons] at hc
    have hcd := h cd (by simp)
    fin_cases hcd <;> simp_all <;> tauto

theorem dayScan_flatten {codes : List (List Char)}
    (h : ∀ cd ∈ codes, cd ∈ upperCodes) : dayScan codes.flatten = codes := by
  induction codes with
  | nil => rfl
  | cons cd rest ih =>
    have hrest : ∀ x ∈ rest, x ∈ upperCodes := fun x hx => h x (by simp [hx])
    have hih := ih hrest
    have hfirst := flatten_firstOk hrest
    have hcd := h cd (by simp)
    simp only [List.flatten_cons]
    fin_cases hcd
    · cases hF : rest.flatten with
      | nil =>
        rw [codes_nil_of_flatten_nil hrest hF]
        simp [dayScan]
      | cons c tl =>
        rw [hF] at hih
        simp only [List.cons_append, List.nil_append, dayScan]
        rw [if_neg (by simp), if_pos (by simp), hih]
    · cases hF : rest.flatten with
      | nil =>
        rw [codes_nil_of_flatten_nil hrest hF]
        simp [dayScan]
      | cons c tl =>
        rw [hF] at hih
        have hc := hfirst c (by rw [hF]; rfl)
        simp only [List.cons_append, List.nil_append, dayScan]
        rw [if_neg (by rcases hc with rfl | rfl | rfl | rfl | rfl <;> simp),
          if_pos (by simp), hih]
    · cases hF : rest.flatten with
      | nil =>
        rw [codes_nil_of_flatten_nil hrest hF]
        simp [dayScan]
      | cons c tl =>
        rw [hF] at hih
        simp only [List.cons_append, List.nil_append, dayScan]
        rw [if_neg (by simp), if_pos (by simp), hih]
    · simp only [List.cons_append, List.nil_append, dayScan]
      rw [if_pos (by simp)]
      simp only [List.append_eq, List.nil_append]
      rw [ih hrest]
    · cases hF : rest.flatten with
      | nil =>
        rw [codes_nil_of_flatten_nil hrest hF]
        simp [dayScan]
      | cons c tl =>
        rw [hF] at hih
        simp only [List.cons_append, List.nil_append, dayScan]
        rw [if_neg (by simp), if_pos (by simp), hih]
    · cases hF : rest.flatten with
      | nil =>
        rw [codes_nil_of_flatten_nil hrest hF]
        simp [dayScan]
      | cons c tl =>
        rw [hF] at hih
        have hc := hfirst c (by rw [hF]; rfl)
        simp only [List.cons_append, List.nil_append, dayScan]
        rw [if_neg (by rcases hc with rfl | rfl | rfl | rfl | rfl <;> simp),
          if_pos (by simp), hih]
    · simp only [List.cons_append, List.nil_append, dayScan]
      rw [if_pos (by simp)]
      simp only [List.append_eq, List.nil_append]
      rw [ih hrest]

/-! ## Helper lemmas: canonical day codes -/

theorem canonical_upper {d : String} (h : d ∈ canonicalDayCodes) :
    d.data.map Char.toUpper ∈ upperCodes := by
  fin_cases h <;> decide

theorem canonical_chars {d : String} (h : d ∈ canonicalDayCodes) :
    ∀ c ∈ d.data, isLetterChar c = true ∧ isWsChar c = false ∧ c ≠ ',' := by
  fin_cases h <;> decide

theorem canonical_data_ne_nil {d : String} (h : d ∈ canonicalDayCodes) : d.data ≠ [] := by
  fin_cases h <;> decide

theorem dayConcat_ne_nil {days : List String} (hne : days ≠ [])
    (hcan : ∀ d ∈ days, d ∈ canonicalDayCodes) : dayConcat days ≠ [] := by
  cases days with
  | nil => exact absurd rfl hne
  | cons d r =>
    unfold dayConcat
    simp only [List.map_cons, List.flatten_cons]
    intro hcon
    simp only [List.append_eq_nil] at hcon
    exact canonical_data_ne_nil (hcan d (by simp)) hcon.1

theorem dayConcat_letters {days : List String}
    (hcan : ∀ d ∈ days, d ∈ canonicalDayCodes) :
    ∀ c ∈ dayConcat days, isLetterChar c = true := by
  intro c hc
  unfold dayConcat at hc
  simp only [List.mem_flatten, List.mem_map] at hc
  obtain ⟨l, ⟨d, hd, rfl⟩, hcl⟩ := hc
  exact (canonical_chars (hcan d hd) c hcl).1

theorem upper_dayConcat (days : List String) :
    (dayConcat days).map Char.toUpper =
      (days.map (fun d => d.data.map Char.toUpper)).flatten := by
  induction days with
  | nil => rfl
  | cons d r ih =>
    simp only [dayConcat, List.map_cons, List.flatten_cons, List.map_append] at ih ⊢
    rw [ih]

theorem dayScan_upper_dayConcat {days : List String}
    (hcan : ∀ d ∈ days, d ∈ canonicalDayCodes) :
    dayScan ((dayConcat days).map Char.toUpper) =
      days.map (fun d => d.data.map Char.toUpper) := by
  rw [upper_dayConcat]
  exact dayScan_flatten (by
    intro cd hcd
    simp only [List.mem_map] at hcd
    obtain ⟨d, hd, rfl⟩ := hcd
    exact canonical_upper (hcan d hd))

/-! ## Helper lemmas: entrySlot on formatted entries -/

theorem mk_data (s : String) : String.mk s.data = s := rfl

theorem entryMatch_build2
    {ds hs1 hs2 a1 a2 : List Char} {m1 m2 m3 m4 : Char}
    (hds : ds ≠ []) (hdsL : ∀ c ∈ ds, isLetterChar c = true)
    (hne1 : hs1 ≠ []) (hlen1 : hs1.length ≤ 2) (hd1 : ∀ c ∈ hs1, isDigitChar c = true)
    (hm1 : isDigitChar m1 = true) (hm2 : isDigitChar m2 = true)
    (hne2 : hs2 ≠ []) (hlen2 : hs2.length ≤ 2) (hd2 : ∀ c ∈ hs2, isDigitChar c = true)
    (hm3 : isDigitChar m3 = true) (hm4 : isDigitChar m4 = true)
    (ha1 : a1 = ['A', 'M'] ∨ a1 = ['P', 'M'])
    (ha2 : a2 = ['A', 'M'] ∨ a2 = ['P', 'M']) :
    entryMatch (ds ++ ' ' :: (hs1 ++ ':' :: m1 :: m2 :: ' ' ::
        (a1 ++ '-' :: (hs2 ++ ':' :: m3 :: m4 :: ' ' :: a2)))) =
      some ⟨ds, hs1 ++ ':' :: [m1, m2], a1, hs2 ++ ':' :: [m3, m4], a2⟩ := by
  have h := entryMatch_build hds hdsL hne1 hlen1 hd1 hm1 hm2 hne2 hlen2 hd2 hm3 hm4
    (Or.inr ha1) ha2
  rw [if_neg (by rcases ha1 with rfl | rfl <;> simp)] at h
  simpa only [List.cons_append] using h

theorem trim_fmt {dh : Nat} {c3 c4 : Char} {sfx : List Char}
    (hdh1 : 1 ≤ dh) (hdh2 : dh ≤ 99)
    (hsfx : sfx = ['A', 'M'] ∨ sfx = ['P', 'M']) :
    trimChars (natToChars dh ++ ':' :: c3 :: c4 :: ' ' :: sfx) =
      natToChars dh ++ ':' :: c3 :: c4 :: ' ' :: sfx := by
  apply trimChars_noop
  · exact head_not_ws_of_digits (natToChars_ne_nil (by omega)) (natToChars_digits (by omega))
  · intro c hc
    rcases hsfx with rfl | rfl
    · rw [show natToChars dh ++ ':' :: c3 :: c4 :: ' ' :: ['A', 'M']
            = (natToChars dh ++ [':', c3, c4, ' ', 'A']) ++ ['M'] by simp,
        List.getLast?_concat] at hc
      cases hc
      decide
    · rw [show natToChars dh ++ ':' :: c3 :: c4 :: ' ' :: ['P', 'M']
            = (natToChars dh ++ [':', c3, c4, ' ', 'P']) ++ ['M'] by simp,
        List.getLast?_concat] at hc
      cases hc
      decide

theorem entrySlot_format {days : List String} {st en : String}
    (hne : days ≠ []) (hcan : ∀ d ∈ days, d ∈ canonicalDayCodes)
    (hst : validHHMM st = true) (hen : validHHMM en = true) :
    entrySlot (dayConcat days ++ ' ' :: (formatTimeC st.data ++ '-' :: formatTimeC en.data)) =
      some (days.map upperStr, st, en) := by
  obtain ⟨s1, s2, s3, s4, p1, p2, p3, p4, hstd, hp1, hp2, hp3, hp4, hsb, -⟩ :=
    valid_hhmm_shape hst
  obtain ⟨e1, e2, e3, e4, q1, q2, q3, q4, hend, hq1, hq2, hq3, hq4, heb, -⟩ :=
    valid_hhmm_shape hen
  have hs3 : isDigitChar s3 = true := by simp [isDigitChar, hp3]
  have hs4 : isDigitChar s4 = true := by simp [isDigitChar, hp4]
  have he3 : isDigitChar e3 = true := by simp [isDigitChar, hq3]
  have he4 : isDigitChar e4 = true := by simp [isDigitChar, hq4]
  obtain ⟨dhS, sfxS, hFst, hdS1, hdS2, hsfxS⟩ :
      ∃ dh sfx, formatTimeC st.data = natToChars dh ++ ':' :: s3 :: s4 :: ' ' :: sfx ∧
        1 ≤ dh ∧ dh ≤ 12 ∧ (sfx = ['A', 'M'] ∨ sfx = ['P', 'M']) := by
    refine ⟨_, _, by rw [hstd]; exact formatTimeC_valid hp1 hp2 hs3 hs4, ?_, ?_, ?_⟩
    · split <;> omega
    · split <;> omega
    · split
      · exact Or.inr rfl
      · exact Or.inl rfl
  obtain ⟨dhE, sfxE, hFen, hdE1, hdE2, hsfxE⟩ :
      ∃ dh sfx, formatTimeC en.data = natToChars dh ++ ':' :: e3 :: e4 :: ' ' :: sfx ∧
        1 ≤ dh ∧ dh ≤ 12 ∧ (sfx = ['A', 'M'] ∨ sfx = ['P', 'M']) := by
    refine ⟨_, _, by rw [hend]; exact formatTimeC_valid hq1 hq2 he3 he4, ?_, ?_, ?_⟩
    · split <;> omega
    · split <;> omega
    · split
      · exact Or.inr rfl
      · exact Or.inl rfl
  have hrtS : parse12C (formatTimeC st.data) = st.data := by
    rw [hstd]; exact roundtrip_time hp1 hp2 hs3 hs4 hsb
  have hrtE : parse12C (formatTimeC en.data) = en.data := by
    rw [hend]; exact roundtrip_time hq1 hq2 he3 he4 heb
  unfold entrySlot
  rw [hFst, hFen]
  simp only [List.append_assoc, List.cons_append]
  rw [entryMatch_build2 (dayConcat_ne_nil hne hcan) (dayConcat_letters hcan)
    (natToChars_ne_nil (by omega)) (natToChars_len (by omega)) (natToChars_digits (by omega))
    hs3 hs4
    (natToChars_ne_nil (by omega)) (natToChars_len (by omega)) (natToChars_digits (by omega))
    he3 he4 hsfxS hsfxE]
  simp only []
  rw [dayScan_upper_dayConcat hcan]
  rw [show sfxS.map Char.toUpper = sfxS by rcases hsfxS with rfl | rfl <;> decide]
  rw [show sfxE.map Char.toUpper = sfxE by rcases hsfxE with rfl | rfl <;> decide]
  rw [if_pos (show sfxS ≠ [] by rcases hsfxS with rfl | rfl <;> simp)]
  rw [if_pos (show sfxE ≠ [] by rcases hsfxE with rfl | rfl <;> simp)]
  simp only [List.append_assoc, List.cons_append, List.nil_append]
  rw [trim_fmt hdS1 (by omega) hsfxS, trim_fmt hdE1 (by omega) hsfxE]
  rw [← hFst, ← hFen, hrtS, hrtE]
  rw [if_pos (by rw [hstd, hend]; simp)]
  simp only [List.map_map, mk_data]
  rfl

/-! ## Helper lemmas: the parse loop and entry recovery -/

theorem parseLoop_skip {e : List Char} (he : entrySlot e = none) :
    ∀ (pre post : List (List Char)) (c : Nat),
      parseLoop (pre ++ e :: post) c = parseLoop (pre ++ post) c := by
  intro pre
  induction pre with
  | nil =>
    intro post c
    simp only [List.nil_append, parseLoop, he]
  | cons p pr ih =>
    intro post c
    simp only [List.cons_append, parseLoop]
    cases hp : entrySlot p with
    | none => exact ih post c
    | some v =>
      obtain ⟨d, tst, ten⟩ := v
      simp only [List.append_eq]
      exact congrArg _ (ih post (c + 1))

theorem parseLoop_format {slots : List TimeSlot}
    (h : ∀ s ∈ slots, s.days ≠ [] ∧ (∀ d ∈ s.days, d ∈ canonicalDayCodes) ∧
      validHHMM s.startTime = true ∧ validHHMM s.endTime = true) :
    ∀ c, (parseLoop (slots.map entryChars) c).map slotTuple =
      slots.map (fun s => (s.days.map upperStr, s.startTime, s.endTime)) := by
  induction slots with
  | nil => intro c; rfl
  | cons s rest ih =>
    intro c
    obtain ⟨h1, h2, h3, h4⟩ := h s (by simp)
    have hes : entrySlot (entryChars s) =
        some (s.days.map upperStr, s.startTime, s.endTime) :=
      entrySlot_format h1 h2 h3 h4
    simp only [List.map_cons, parseLoop, hes]
    rw [ih (fun x hx => h x (by simp [hx])) (c + 1)]
    rfl

theorem getLast?_cons_ne {a : Char} {l : List Char} (h : l ≠ []) :
    (a :: l).getLast? = l.getLast? := by
  cases l with
  | nil => exact absurd rfl h
  | cons b t => rfl

theorem head_not_ws_dayConcat {days : List String} {R : List Char} (hne : days ≠ [])
    (hcan : ∀ d ∈ days, d ∈ canonicalDayCodes) :
    ∀ c, (dayConcat days ++ R).head? = some c → isWsChar c = false := by
  intro c hc
  cases hd : dayConcat days with
  | nil => exact absurd hd (dayConcat_ne_nil hne hcan)
  | cons a t =>
    rw [hd] at hc
    simp at hc
    rw [← hc]
    have ha : a ∈ dayConcat days := by rw [hd]; simp
    unfold dayConcat at ha
    simp only [List.mem_flatten, List.mem_map] at ha
    obtain ⟨l, ⟨d, hdm, rfl⟩, hal⟩ := ha
    exact (canonical_chars (hcan d hdm) a hal).2.1

theorem dayConcat_no_comma {days : List String}
    (hcan : ∀ d ∈ days, d ∈ canonicalDayCodes) :
    ∀ c ∈ dayConcat days, c ≠ ',' := by
  intro c hc
  unfold dayConcat at hc
  simp only [List.mem_flatten, List.mem_map] at hc
  obtain ⟨l, ⟨d, hdm, rfl⟩, hcl⟩ := hc
  exact (canonical_chars (hcan d hdm) c hcl).2.2

theorem fmt_no_comma {dh : Nat} {c3 c4 : Char} {sfx : List Char}
    (hdh : dh ≤ 99) (h3 : isDigitChar c3 = true) (h4 : isDigitChar c4 = true)
    (hsfx : sfx = ['A', 'M'] ∨ sfx = ['P', 'M']) :
    ∀ c ∈ natToChars dh ++ ':' :: c3 :: c4 :: ' ' :: sfx, c ≠ ',' := by
  intro c hc
  rcases List.mem_append.mp hc with hn | hr
  · exact (digit_classes (natToChars_digits (by omega) c hn)).2.2.2.1
  · rcases List.mem_cons.mp hr with rfl | hr
    · decide
    · rcases List.mem_cons.mp hr with rfl | hr
      · exact (digit_classes h3).2.2.2.1
      · rcases List.mem_cons.mp hr with rfl | hr
        · exact (digit_classes h4).2.2.2.1
        · rcases List.mem_cons.mp hr with rfl | hr
          · decide
          · rcases hsfx with rfl | rfl <;> (simp at hr; rcases hr with rfl | rfl <;> decide)

theorem entryChars_facts {s : TimeSlot}
    (h1 : s.days ≠ []) (h2 : ∀ d ∈ s.days, d ∈ canonicalDayCodes)
    (h3 : validHHMM s.startTime = true) (h4 : validHHMM s.endTime = true) :
    entryChars s ≠ [] ∧ (∀ c ∈ entryChars s, c ≠ ',') ∧
      trimChars (entryChars s) = entryChars s := by
  obtain ⟨s1, s2, s3, s4, p1, p2, p3, p4, hstd, hp1, hp2, hp3, hp4, hsb, -⟩ :=
    valid_hhmm_shape h3
  obtain ⟨e1, e2, e3, e4, q1, q2, q3, q4, hend, hq1, hq2, hq3, hq4, heb, -⟩ :=
    valid_hhmm_shape h4
  have hs3 : isDigitChar s3 = true := by simp [isDigitChar, hp3]
  have hs4 : isDigitChar s4 = true := by simp [isDigitChar, hp4]
  have he3 : isDigitChar e3 = true := by simp [isDigitChar, hq3]
  have he4 : isDigitChar e4 = true := by simp [isDigitChar, hq4]
  obtain ⟨dhS, sfxS, hFst, hdS1, hdS2, hsfxS⟩ :
      ∃ dh sfx, formatTimeC s.startTime.data = natToChars dh ++ ':' :: s3 :: s4 :: ' ' :: sfx ∧
        1 ≤ dh ∧ dh ≤ 12 ∧ (sfx = ['A', 'M'] ∨ sfx = ['P', 'M']) := by
    refine ⟨_, _, by rw [hstd]; exact formatTimeC_valid hp1 hp2 hs3 hs4, ?_, ?_, ?_⟩
    · split <;> omega
    · split <;> omega
    · split
      · exact Or.inr rfl
      · exact Or.inl rfl
  obtain ⟨dhE, sfxE, hFen, hdE1, hdE2, hsfxE⟩ :
      ∃ dh sfx, formatTimeC s.endTime.data = natToChars dh ++ ':' :: e3 :: e4 :: ' ' :: sfx ∧
        1 ≤ dh ∧ dh ≤ 12 ∧ (sfx = ['A', 'M'] ∨ sfx = ['P', 'M']) := by
    refine ⟨_, _, by rw [hend]; exact formatTimeC_valid hq1 hq2 he3 he4, ?_, ?_, ?_⟩
    · split <;> omega
    · split <;> omega
    · split
      · exact Or.inr rfl
      · exact Or.inl rfl
  refine ⟨?_, ?_, ?_⟩
  · unfold entryChars
    simp
  · intro c hc
    unfold entryChars at hc
    rw [hFst, hFen] at hc
    rcases List.mem_append.mp hc with hday | hr
    · exact dayConcat_no_comma h2 c hday
    · rcases List.mem_cons.mp hr with rfl | hr
      · decide
      · rcases List.mem_append.mp hr with hS | hr
        · exact fmt_no_comma (by omega) hs3 hs4 hsfxS c hS
        · rcases List.mem_cons.mp hr with rfl | hE
          · decide
          · exact fmt_no_comma (by omega) he3 he4 hsfxE c hE
  · apply trimChars_noop
    · exact head_not_ws_dayConcat h1 h2
    · intro c hc
      unfold entryChars at hc
      rw [hFst, hFen] at hc
      rw [List.getLast?_append_of_ne_nil _ (by simp)] at hc
      rw [getLast?_cons_ne (by simp)] at hc
      rw [List.getLast?_append_of_ne_nil _ (by simp)] at hc
      rw [getLast?_cons_ne (by
        rcases hsfxE with rfl | rfl <;> simp)] at hc
      rw [List.getLast?_append_of_ne_nil _ (by simp)] at hc
      rw [getLast?_cons_ne (by rcases hsfxE with rfl | rfl <;> simp)] at hc
      rw [getLast?_cons_ne (by rcases hsfxE with rfl | rfl <;> simp)] at hc
      rw [getLast?_cons_ne (by rcases hsfxE with rfl | rfl <;> simp)] at hc
      rw [getLast?_cons_ne (by rcases hsfxE with rfl | rfl <;> simp)] at hc
      rcases hsfxE with rfl | rfl <;> (simp at hc; rw [← hc]; decide)

theorem split_joinSep {e : List Char} {es : List (List Char)}
    (he : ',' ∉ e) (hes : ∀ x ∈ es, ',' ∉ x) :
    splitChar ',' (joinSep [',', ' '] (e :: es)) = e :: es.map (' ' :: ·) := by
  induction es generalizing e with
  | nil => exact splitChar_no_sep he
  | cons f rest ih =>
    show splitChar ',' (e ++ [',', ' '] ++ joinSep [',', ' '] (f :: rest)) = _
    rw [show e ++ [',', ' '] ++ joinSep [',', ' '] (f :: rest)
          = e ++ ',' :: (' ' :: joinSep [',', ' '] (f :: rest)) by simp]
    rw [splitChar_append _ he]
    have hr := ih (e := f) (hes f (by simp)) (fun x hx => hes x (by simp [hx]))
    rw [splitChar_cons _ (by decide) hr]
    rfl

theorem entries_pipeline {slots : List TimeSlot} (hne : slots ≠ [])
    (h : ∀ s ∈ slots, s.days ≠ [] ∧ (∀ d ∈ s.days, d ∈ canonicalDayCodes) ∧
      validHHMM s.startTime = true ∧ validHHMM s.endTime = true) :
    ((splitChar ',' (joinSep [',', ' '] (slots.map entryChars))).map trimChars).filter
        (· ≠ []) = slots.map entryChars := by
  cases slots with
  | nil => exact absurd rfl hne
  | cons s rest =>
    have hfacts : ∀ x ∈ s :: rest, entryChars x ≠ [] ∧ (∀ c ∈ entryChars x, c ≠ ',') ∧
        trimChars (entryChars x) = entryChars x := by
      intro x hx
      obtain ⟨f1, f2, f3, f4⟩ := h x hx
      exact entryChars_facts f1 f2 f3 f4
    rw [List.map_cons, split_joinSep (fun hm => (hfacts s (by simp)).2.1 ',' hm rfl) (by
      intro x hx hm
      obtain ⟨t, ht, rfl⟩ := List.mem_map.mp hx
      exact (hfacts t (by simp [ht])).2.1 ',' hm rfl)]
    rw [List.map_cons, (hfacts s (by simp)).2.2]
    rw [show (rest.map entryChars |>.map (' ' :: ·)).map trimChars = rest.map entryChars by
      rw [List.map_map, List.map_map]
      rw [List.map_congr_left (g := entryChars) (by
        intro t ht
        show trimChars (' ' :: entryChars t) = entryChars t
        rw [trimChars_cons_space]
        exact (hfacts t (by simp [ht])).2.2)]]
    rw [List.filter_eq_self.mpr (by
      intro x hx
      rcases List.mem_cons.mp hx with rfl | hx
      · simpa using (hfacts s (by simp)).1
      · obtain ⟨t, ht, rfl⟩ := List.mem_map.mp hx
        simpa using (hfacts t (by simp [ht])).1)]

/-! ## Helper lemmas: the day sort -/

theorem sortDays_idem (d : List String) : sortDays (sortDays d) = sortDays d :=
  List.Sorted.insertionSort_eq (List.sorted_insertionSort dayLe d)

theorem sortDays_strict {d : List String} (hnd : d.Nodup)
    (hcan : ∀ x ∈ d, x ∈ canonicalDayCodes) : (sortDays d).Pairwise dayLt := by
  have hperm := List.perm_insertionSort dayLe d
  have hnd2 : (sortDays d).Nodup := (hperm.nodup_iff).mpr hnd
  have hsorted : (sortDays d).Sorted dayLe := List.sorted_insertionSort dayLe d
  have hinj : ∀ a ∈ canonicalDayCodes, ∀ b ∈ canonicalDayCodes,
      dayKey a = dayKey b → a = b := by decide
  refine List.Pairwise.imp_of_mem ?_ (hsorted.and hnd2)
  intro a b ha hb hab
  have hca := hcan a (hperm.mem_iff.mp ha)
  have hcb := hcan b (hperm.mem_iff.mp hb)
  exact lt_of_le_of_ne hab.1 fun he => hab.2 (hinj a hca b hcb he)

theorem sortDays_eq_of_perm {d1 d2 : List String} (hperm : List.Perm d1 d2)
    (hnd : d1.Nodup) (hcan : ∀ x ∈ d1, x ∈ canonicalDayCodes) :
    sortDays d1 = sortDays d2 := by
  have hnd2 : d2.Nodup := (hperm.nodup_iff).mp hnd
  have hcan2 : ∀ x ∈ d2, x ∈ canonicalDayCodes := fun x hx =>
    hcan x (hperm.mem_iff.mpr hx)
  exact List.eq_of_perm_of_sorted
    ((List.perm_insertionSort dayLe d1).trans
      (hperm.trans (List.perm_insertionSort dayLe d2).symm))
    (sortDays_strict hnd hcan) (sortDays_strict hnd2 hcan2)

/-! ## Claim theorems -/

/-- C4: 12/24-hour conversion correctness — `formatTimeForSchedule` maps
`"00:00"` to `"12:00 AM"`, `"12:00"` to `"12:00 PM"`, `"13:30"` to
`"1:30 PM"`, `"23:59"` to `"11:59 PM"`, and `parse12HourTime` maps each
of those 12-hour strings back to the corresponding 24-hour string. -/
theorem C4_time_conversion_correct :
    formatTimeForSchedule "00:00" = "12:00 AM" ∧
    formatTimeForSchedule "12:00" = "12:00 PM" ∧
    formatTimeForSchedule "13:30" = "1:30 PM" ∧
    formatTimeForSchedule "23:59" = "11:59 PM" ∧
    parse12HourTime "12:00 AM" = "00:00" ∧
    parse12HourTime "12:00 PM" = "12:00" ∧
    parse12HourTime "1:30 PM" = "13:30" ∧
    parse12HourTime "11:59 PM" = "23:59" := by
  decide

/-- C8: conflict-checker behaviour — an empty slot list short-circuits to
`{hasConflict := false, message := ""}` with no network request issued, and
a transport or JSON-parse failure (the `catch` branch) yields
`hasConflict := false` with a diagnostic message; the function never
propagates the failure (it is total). -/
theorem C8_conflict_check_fail_open :
    (∀ net, checkScheduleConflicts [] net = (⟨false, ""⟩, false)) ∧
    (∀ slots, slots ≠ [] →
      checkScheduleConflicts slots NetOutcome.err =
        (⟨false, "Error checking schedule conflicts"⟩, true)) := by
  constructor
  · intro net; rfl
  · intro slots hne
    unfold checkScheduleConflicts
    rw [if_neg (by simpa [List.length_eq_zero] using hne)]

theorem C8_witness :
    checkScheduleConflicts [] NetOutcome.err = (⟨false, ""⟩, false) ∧
    checkScheduleConflicts [(⟨"slot_0", ["M"], "09:00", "10:00", none⟩ : TimeSlot)]
        NetOutcome.err = (⟨false, "Error checking schedule conflicts"⟩, true) :=
  ⟨C8_conflict_check_fail_open.1 NetOutcome.err,
    C8_conflict_check_fail_open.2 _ (by decide)⟩

/-- C2 counterexample: `formatSchedule` is not free of side effects — on a
slot whose days were inserted as `["T", "M"]`, the call leaves the slot
list with the days array re-ordered in place to `["M", "T"]`, so the
slot list after the call differs from the one before it. -/
theorem C2_counterexample :
    (formatSchedule [(⟨"slot_0", ["T", "M"], "09:00", "10:30", some false⟩ : TimeSlot)]).2 ≠
      [(⟨"slot_0", ["T", "M"], "09:00", "10:30", some false⟩ : TimeSlot)] := by
  decide

/-- C2 (amended): `formatSchedule` is deterministic — formatting the
post-call slot list again yields the same string — and it leaves every
field except `days` unchanged, but it sorts each slot's `days` array in
place (`slot.days.sort(...)`): the post-call slot list is the input with
each days array replaced by its weekday-order sort, a permutation of the
original days. -/
theorem C2_format_deterministic_sort_effect (slots : List TimeSlot) :
    (formatSchedule ((formatSchedule slots).2)).1 = (formatSchedule slots).1 ∧
    (formatSchedule slots).2 = slots.map sortSlot ∧
    ∀ s ∈ slots, List.Perm (sortDays s.days) s.days := by
  refine ⟨?_, ?_, fun s _ => List.perm_insertionSort dayLe s.days⟩
  · by_cases hnil : slots = []
    · subst hnil; rfl
    · unfold formatSchedule
      rw [if_neg hnil]
      rw [if_neg (by simpa using hnil)]
      simp only [List.map_map]
      rw [List.map_congr_left (g := entryChars ∘ sortSlot) (by
        intro x hx
        show entryChars (sortSlot (sortSlot x)) = entryChars (sortSlot x)
        simp [sortSlot, sortDays_idem])]
  · by_cases hnil : slots = []
    · subst hnil; rfl
    · unfold formatSchedule
      rw [if_neg hnil]

theorem C2_witness :
    (formatSchedule ((formatSchedule
        [(⟨"slot_0", ["T", "M"], "09:00", "10:30", some false⟩ : TimeSlot)]).2)).1 =
      (formatSchedule [(⟨"slot_0", ["T", "M"], "09:00", "10:30", some false⟩ : TimeSlot)]).1 ∧
    (formatSchedule [(⟨"slot_0", ["T", "M"], "09:00", "10:30", some false⟩ : TimeSlot)]).2 =
      [(⟨"slot_0", ["T", "M"], "09:00", "10:30", some false⟩ : TimeSlot)].map sortSlot :=
  ⟨(C2_format_deterministic_sort_effect
      [(⟨"slot_0", ["T", "M"], "09:00", "10:30", some false⟩ : TimeSlot)]).1,
    (C2_format_deterministic_sort_effect
      [(⟨"slot_0", ["T", "M"], "09:00", "10:30", some false⟩ : TimeSlot)]).2.1⟩

/-- C7: day-sort determinism — for a slot whose days are distinct
canonical codes, the formatted string is the same for every insertion
order of the days, and the day list emitted is strictly increasing in
the fixed weekday order `M, T, W, Th, F, S, Su`. -/
theorem C7_day_sort_determinism (days1 days2 : List String)
    (hperm : List.Perm days1 days2) (hnd : days1.Nodup)
    (hcan : ∀ d ∈ days1, d ∈ canonicalDayCodes)
    (i1 i2 st en : String) (ov1 ov2 : Option Bool) :
    (formatSchedule [⟨i1, days1, st, en, ov1⟩]).1 =
      (formatSchedule [⟨i2, days2, st, en, ov2⟩]).1 ∧
    (sortDays days1).Pairwise dayLt := by
  refine ⟨?_, sortDays_strict hnd hcan⟩
  have hsd := sortDays_eq_of_perm hperm hnd hcan
  unfold formatSchedule
  rw [if_neg (by simp), if_neg (by simp)]
  simp [entryChars, sortSlot, hsd]

theorem C7_witness :
    List.Perm (["W", "M"] : List String) ["M", "W"] ∧
    (["W", "M"] : List String).Nodup ∧
    ((formatSchedule [⟨"a", ["W", "M"], "09:00", "10:00", some false⟩]).1 =
      (formatSchedule [⟨"b", ["M", "W"], "09:00", "10:00", some false⟩]).1 ∧
    (sortDays ["W", "M"]).Pairwise dayLt) :=
  ⟨by decide, by decide,
    C7_day_sort_determinism ["W", "M"] ["M", "W"] (by decide) (by decide) (by decide)
      "a" "b" "09:00" "10:00" (some false) (some false)⟩

/-- C5 counterexample: the entry `"TH 9:00 AM-10:00 AM"` parses to a slot
whose single day token is the uppercase string `"TH"`, which is not the
canonical code `"Th"` the claim names (the parser uppercases the day
block before scanning and stores the uppercased token). -/
theorem C5_counterexample :
    (parseExistingSchedule "TH 9:00 AM-10:00 AM" 0).map (fun s => s.days) = [["TH"]] ∧
    (["TH"] : List String) ≠ ["Th"] := by
  decide

/-- C5 (amended): the day scanner tries the two-letter codes `TH`/`SU`
first (longest-match-first) and skips unrecognized characters, so
`"TH 9:00 AM-10:00 AM"` parses to one slot with the single day token
`"TH"` (the uppercased form of `"Th"`), not the two days `"T"` and
`"H"`; and any character outside `{M,T,W,F,S}` at the head of the scan
is skipped without aborting. -/
theorem C5_day_code_disambiguation :
    ((parseExistingSchedule "TH 9:00 AM-10:00 AM" 0).map slotTuple =
      [(["TH"], "09:00", "10:00")]) ∧
    (∀ (c : Char) (cs : List Char),
      ¬(c = 'M' ∨ c = 'T' ∨ c = 'W' ∨ c = 'F' ∨ c = 'S') →
        dayScan (c :: cs) = dayScan cs) := by
  constructor
  · decide
  · intro c cs hc
    push_neg at hc
    obtain ⟨hM, hT, hW, hF, hS⟩ := hc
    cases cs with
    | nil =>
      show (if c = 'M' || c = 'T' || c = 'W' || c = 'F' || c = 'S' then [[c]] else []) = _
      rw [if_neg (by simp [hM, hT, hW, hF, hS])]
      rfl
    | cons c2 rest =>
      show (if (c = 'T' && c2 = 'H') || (c = 'S' && c2 = 'U') then _ else _) = _
      rw [if_neg (by simp [hT, hS])]
      rw [if_neg (by simp [hM, hT, hW, hF, hS])]

theorem C5_witness : dayScan ['H', 'M'] = dayScan ['M'] :=
  C5_day_code_disambiguation.2 'H' ['M'] (by decide)

/-- C6: resilient parse — an entry that fails the entry regex or whose
time parse fails contributes no slot and parsing of the other entries
continues (the skipped entry does not even consume an id), and the
mixed input with a malformed middle entry yields exactly the two valid
slots.  The parser is a total function, so no exception escapes. -/
theorem C6_resilient_parse :
    (∀ (pre post : List (List Char)) (e : List Char) (c : Nat), entrySlot e = none →
      parseLoop (pre ++ e :: post) c = parseLoop (pre ++ post) c) ∧
    (parseExistingSchedule "MWF 10:00 AM-12:00 PM, garbage-entry, TTh 1:00 PM-2:30 PM" 0).map
        slotTuple =
      [(["M", "W", "F"], "10:00", "12:00"), (["T", "TH"], "13:00", "14:30")] :=
  ⟨fun pre post e c he => parseLoop_skip he pre post c, by decide⟩

theorem C6_witness :
    entrySlot ("garbage-entry".data) = none ∧
    parseLoop (["MWF 10:00 AM-12:00 PM".data] ++ "garbage-entry".data ::
        ["TTh 1:00 PM-2:30 PM".data]) 0 =
      parseLoop (["MWF 10:00 AM-12:00 PM".data] ++ ["TTh 1:00 PM-2:30 PM".data]) 0 :=
  ⟨by decide, C6_resilient_parse.1 _ _ _ 0 (by decide)⟩

theorem data_mk (l : List Char) : (String.mk l).data = l := rfl

/-- C1 counterexample: the literal round-trip fails on the two-letter day
codes — for a schedule with one slot on `Th`, parsing the formatted
string yields the day token `"TH"` (uppercased), so the multiset of
`(sorted-days, startTime, endTime)` tuples is not the same as the
original's. -/
theorem C1_counterexample :
    (parseExistingSchedule (formatSchedule
        [(⟨"slot_0", ["Th"], "09:00", "10:00", some false⟩ : TimeSlot)]).1 0).map slotTuple =
      [(["TH"], "09:00", "10:00")] ∧
    ¬ List.Perm
      ((parseExistingSchedule (formatSchedule
          [(⟨"slot_0", ["Th"], "09:00", "10:00", some false⟩ : TimeSlot)]).1 0).map slotTuple)
      ([(⟨"slot_0", ["Th"], "09:00", "10:00", some false⟩ : TimeSlot)].map
        (fun s => (sortDays s.days, s.startTime, s.endTime))) := by
  decide

/-- C1 (amended): for every schedule built from valid `addSlot` calls
(nonempty, duplicate-free canonical day sets; well-formed `HH:MM`
times), parsing the formatted string reconstructs the slot sequence —
same order, same start/end times — with each slot's day codes in sorted
weekday order but uppercased (`Th` comes back as `TH`, `Su` as `SU`);
equality of the `(sorted-days, startTime, endTime)` tuples therefore
holds after uppercasing the day codes, and holds literally exactly when
no slot uses `Th` or `Su`. -/
theorem C1_roundtrip_uppercased (slots : List TimeSlot) (c0 : Nat)
    (h : ∀ s ∈ slots, ValidSlot s) :
    (parseExistingSchedule (formatSchedule slots).1 c0).map slotTuple =
      slots.map (fun s => ((sortDays s.days).map upperStr, s.startTime, s.endTime)) := by
  cases slots with
  | nil => rfl
  | cons s rest =>
    have hpost : ∀ x ∈ (s :: rest).map sortSlot,
        x.days ≠ [] ∧ (∀ d ∈ x.days, d ∈ canonicalDayCodes) ∧
          validHHMM x.startTime = true ∧ validHHMM x.endTime = true := by
      intro x hx
      obtain ⟨t, ht, rfl⟩ := List.mem_map.mp hx
      obtain ⟨g1, g2, g3, g4, g5⟩ := h t ht
      have hperm : List.Perm (sortDays t.days) t.days :=
        List.perm_insertionSort dayLe t.days
      refine ⟨?_, ?_, g4, g5⟩
      · intro hnil
        have hnil2 : sortDays t.days = [] := hnil
        rw [hnil2] at hperm
        exact g1 hperm.symm.eq_nil
      · intro d hd
        exact g3 d (hperm.mem_iff.mp hd)
    have h1 : (formatSchedule (s :: rest)).1 =
        String.mk (joinSep [',', ' '] (((s :: rest).map sortSlot).map entryChars)) := by
      unfold formatSchedule
      rw [if_neg (by simp)]
    rw [h1]
    unfold parseExistingSchedule
    rw [data_mk]
    rw [entries_pipeline (by simp) hpost]
    rw [parseLoop_format hpost c0]
    simp only [List.map_map]
    rfl

theorem C1_witness :
    ValidSlot (⟨"slot_0", ["Th", "M"], "09:00", "10:30", some false⟩ : TimeSlot) ∧
    (parseExistingSchedule (formatSchedule
        [(⟨"slot_0", ["Th", "M"], "09:00", "10:30", some false⟩ : TimeSlot)]).1 5).map
        slotTuple =
      [(⟨"slot_0", ["Th", "M"], "09:00", "10:30", some false⟩ : TimeSlot)].map
        (fun s => ((sortDays s.days).map upperStr, s.startTime, s.endTime)) :=
  ⟨by decide, C1_roundtrip_uppercased _ 5 (by decide)⟩

theorem valid_time_facts {t : String} (h : validHHMM t = true) :
    trimChars t.data = t.data ∧ t.data ≠ [] ∧ totalMinutes t.data = some (hhmmVal t) := by
  obtain ⟨c1, c2, c3, c4, d1, d2, d3, d4, htd, h1, h2, h3, h4, -, -⟩ := valid_hhmm_shape h
  have e1 : isDigitChar c1 = true := by simp [isDigitChar, h1]
  have e2 : isDigitChar c2 = true := by simp [isDigitChar, h2]
  have e3 : isDigitChar c3 = true := by simp [isDigitChar, h3]
  have e4 : isDigitChar c4 = true := by simp [isDigitChar, h4]
  have hval : hhmmVal t = (10 * d1 + d2) * 60 + (10 * d3 + d4) := by
    unfold hhmmVal
    rw [htd]
    simp [h1, h2, h3, h4]
  refine ⟨?_, ?_, ?_⟩
  · rw [htd]
    apply trimChars_noop
    · intro c hc
      cases hc
      exact (digit_classes e1).1
    · intro c hc
      rw [show ([c1, c2, ':', c3, c4] : List Char).getLast? = some c4 from rfl] at hc
      cases hc
      exact (digit_classes e4).1
  · rw [htd]; simp
  · rw [htd]
    unfold totalMinutes
    have hsplit : splitChar ':' [c1, c2, ':', c3, c4] = [[c1, c2], [c3, c4]] := by
      rw [show ([c1, c2, ':', c3, c4] : List Char) = [c1, c2] ++ ':' :: [c3, c4] by simp]
      rw [splitChar_append _ (by
        intro hm
        simp at hm
        rcases hm with rfl | rfl
        · exact absurd rfl (digit_classes e1).2.2.1
        · exact absurd rfl (digit_classes e2).2.2.1)]
      rw [splitChar_no_sep (by
        intro hm
        simp at hm
        rcases hm with rfl | rfl
        · exact absurd rfl (digit_classes e3).2.2.1
        · exact absurd rfl (digit_classes e4).2.2.1)]
    rw [hsplit]
    have hjs1 : jsNumber [c1, c2] = some (10 * d1 + d2) := by
      unfold jsNumber
      rw [trimChars_noop (by intro c hc; cases hc; exact (digit_classes e1).1)
        (by intro c hc
            rw [show ([c1, c2] : List Char).getLast? = some c2 from rfl] at hc
            cases hc
            exact (digit_classes e2).1)]
      rw [if_neg (by simp), if_pos (by simp [e1, e2]), digitsVal_pair h1 h2]
    have hjs2 : jsNumber [c3, c4] = some (10 * d3 + d4) := by
      unfold jsNumber
      rw [trimChars_noop (by intro c hc; cases hc; exact (digit_classes e3).1)
        (by intro c hc
            rw [show ([c3, c4] : List Char).getLast? = some c4 from rfl] at hc
            cases hc
            exact (digit_classes e4).1)]
      rw [if_neg (by simp), if_pos (by simp [e3, e4]), digitsVal_pair h3 h4]
    simp [List.getD, hjs1, hjs2, hval]

/-- C3: rejection of invalid add — for time-input values that are either
empty (missing) or well-formed `HH:MM`, the add-slot click handler emits
a warning notification and leaves the state unchanged exactly when a
time is missing, no day is selected, or the slot is not overnight
(`end < start` is the derived overnight flag) and the end time is not
strictly after the start time; the handler is a total function, so no
exception reaches the caller.  In particular `addSlot` with no selected
day and times `09:00`/`10:00` fails (see the witness), while
`10:00`→`09:00` is flagged overnight and accepted. -/
theorem C3_add_slot_validation (st : BuilderState) (sIn eIn : String)
    (hs : sIn = "" ∨ validHHMM sIn = true) (he : eIn = "" ∨ validHHMM eIn = true) :
    ((addTime st sIn eIn).2.isSome ↔
      (sIn = "" ∨ eIn = "" ∨ st.selectedDays = [] ∨
        (¬ hhmmVal eIn < hhmmVal sIn ∧ hhmmVal eIn ≤ hhmmVal sIn))) ∧
    ((addTime st sIn eIn).2.isSome → (addTime st sIn eIn).1 = st) := by
  rcases hs with rfl | hsv
  · constructor
    · simp [addTime, trimChars]
    · intro hw
      simp [addTime, trimChars]
  · rcases he with rfl | hev
    · constructor
      · simp [addTime, trimChars, (valid_time_facts hsv).1]
      · intro hw
        simp [addTime, trimChars, (valid_time_facts hsv).1]
    · obtain ⟨htrS, hneS, htotS⟩ := valid_time_facts hsv
      obtain ⟨htrE, hneE, htotE⟩ := valid_time_facts hev
      have hs_ne : sIn ≠ "" := fun hh => hneS (by rw [hh])
      have he_ne : eIn ≠ "" := fun hh => hneE (by rw [hh])
      simp only [addTime, htrS, htrE]
      rw [if_neg (by simp [hneS, hneE])]
      by_cases hdays : st.selectedDays = []
      · rw [if_pos (by simp [hdays])]
        refine ⟨?_, fun _ => rfl⟩
        simp [hdays]
      · rw [if_neg (by simpa [List.length_eq_zero] using hdays)]
        rw [htotS, htotE]
        simp only [ltNaN, leNaN]
        by_cases hov : hhmmVal eIn < hhmmVal sIn
        · rw [if_neg (by simp [hov])]
          refine ⟨?_, fun hw => by simp at hw⟩
          simp [hs_ne, he_ne, hdays, hov]
        · by_cases hle : hhmmVal eIn ≤ hhmmVal sIn
          · rw [if_pos (by simp [hov, hle])]
            refine ⟨?_, fun _ => rfl⟩
            simp [hov, hle]
          · rw [if_neg (by simp [hov, hle])]
            refine ⟨?_, fun hw => by simp at hw⟩
            simp [hs_ne, he_ne, hdays, hov, hle]

theorem C3_witness :
    validHHMM "09:00" = true ∧ validHHMM "10:00" = true ∧
    ((addTime ⟨[], [], 0⟩ "09:00" "10:00").2.isSome ↔
      (("09:00" : String) = "" ∨ ("10:00" : String) = "" ∨
        (⟨[], [], 0⟩ : BuilderState).selectedDays = [] ∨
        (¬ hhmmVal "10:00" < hhmmVal "09:00" ∧ hhmmVal "10:00" ≤ hhmmVal "09:00"))) ∧
    (addTime ⟨[], [], 0⟩ "09:00" "10:00").1 = ⟨[], [], 0⟩ :=
  ⟨by decide, by decide,
    (C3_add_slot_validation ⟨[], [], 0⟩ "09:00" "10:00"
      (Or.inr (by decide)) (Or.inr (by decide))).1,
    (C3_add_slot_validation ⟨[], [], 0⟩ "09:00" "10:00"
      (Or.inr (by decide)) (Or.inr (by decide))).2 (by decide)⟩

/-- C9: start-time AM/PM asymmetry — an entry `<days> H:MM-H:MM AM|PM`
with the AM/PM omitted on the start time still matches the per-entry
regex (the start AM/PM group captures empty, the end AM/PM is required),
but the reconstructed start-time token then fails `parse12HourTime`
(whose regex requires AM/PM), so the whole entry yields no slot while
parsing of other entries continues. -/
theorem C9_start_ampm_asymmetry
    (ds hs1 hs2 : List Char) (m1 m2 m3 m4 : Char) (a2 : List Char)
    (hds : ds ≠ []) (hdsL : ∀ c ∈ ds, isLetterChar c = true)
    (hne1 : hs1 ≠ []) (hlen1 : hs1.length ≤ 2) (hd1 : ∀ c ∈ hs1, isDigitChar c = true)
    (hm1 : isDigitChar m1 = true) (hm2 : isDigitChar m2 = true)
    (hne2 : hs2 ≠ []) (hlen2 : hs2.length ≤ 2) (hd2 : ∀ c ∈ hs2, isDigitChar c = true)
    (hm3 : isDigitChar m3 = true) (hm4 : isDigitChar m4 = true)
    (ha2 : a2 = ['A', 'M'] ∨ a2 = ['P', 'M']) :
    entryMatch (ds ++ ' ' :: (hs1 ++ ':' :: m1 :: m2 :: '-' ::
        (hs2 ++ ':' :: m3 :: m4 :: ' ' :: a2))) =
      some ⟨ds, hs1 ++ ':' :: [m1, m2], [], hs2 ++ ':' :: [m3, m4], a2⟩ ∧
    entrySlot (ds ++ ' ' :: (hs1 ++ ':' :: m1 :: m2 :: '-' ::
        (hs2 ++ ':' :: m3 :: m4 :: ' ' :: a2))) = none ∧
    ∀ (pre post : List (List Char)) (c : Nat),
      parseLoop (pre ++ (ds ++ ' ' :: (hs1 ++ ':' :: m1 :: m2 :: '-' ::
          (hs2 ++ ':' :: m3 :: m4 :: ' ' :: a2))) :: post) c =
        parseLoop (pre ++ post) c := by
  have hmatch := entryMatch_build hds hdsL hne1 hlen1 hd1 hm1 hm2 hne2 hlen2 hd2 hm3 hm4
    (Or.inl rfl) ha2
  rw [if_pos rfl] at hmatch
  simp only [List.nil_append] at hmatch
  have hnone : entrySlot (ds ++ ' ' :: (hs1 ++ ':' :: m1 :: m2 :: '-' ::
      (hs2 ++ ':' :: m3 :: m4 :: ' ' :: a2))) = none := by
    unfold entrySlot
    rw [hmatch]
    have hps : parse12C (trimChars (hs1 ++ [':', m1, m2])) = [] := by
      rw [trimChars_digit_block hd1 hm2, parse12C_no_suffix hd1 hm2]
    simp [hps]
  exact ⟨hmatch, hnone, fun pre post c => parseLoop_skip hnone pre post c⟩

theorem C9_witness :
    entryMatch ("M 9:00-10:00 AM".data) =
      some ⟨['M'], ['9'] ++ ':' :: ['0', '0'], [], ['1', '0'] ++ ':' :: ['0', '0'],
        ['A', 'M']⟩ ∧
    entrySlot ("M 9:00-10:00 AM".data) = none ∧
    parseLoop (["W 1:00 PM-2:30 PM".data] ++ "M 9:00-10:00 AM".data ::
        ["F 3:00 PM-4:00 PM".data]) 7 =
      parseLoop (["W 1:00 PM-2:30 PM".data] ++ ["F 3:00 PM-4:00 PM".data]) 7 := by
  have h := C9_start_ampm_asymmetry ['M'] ['9'] ['1', '0'] '0' '0' '0' '0' ['A', 'M']
    (by decide) (by decide) (by decide) (by decide) (by decide) (by decide) (by decide)
    (by decide) (by decide) (by decide) (by decide) (by decide) (Or.inl rfl)
  exact ⟨h.1, h.2.1, h.2.2 _ _ 7⟩

/-- C10: no hour range check in the time parser — `parse12HourTime`
accepts any one- or two-digit hour: for a two-digit hour with value 13
to 99 followed by `PM` it succeeds and returns the hour digits
unchanged (e.g. `"13:30 PM"` yields `"13:30"`), and `"0:MM AM"`
succeeds and returns `"00:MM"`, rather than reporting a parse failure
for these non-12-hour inputs. -/
theorem C10_parse12_no_hour_range_check
    (a b m1 m2 : Char) (da db : Nat)
    (ha : digitVal? a = some da) (hb : digitVal? b = some db)
    (hm1 : isDigitChar m1 = true) (hm2 : isDigitChar m2 = true)
    (h13 : 13 ≤ 10 * da + db) :
    parse12HourTime (String.mk (a :: b :: ':' :: m1 :: m2 :: ' ' :: ['P', 'M'])) =
      String.mk (a :: b :: ':' :: [m1, m2]) ∧
    parse12HourTime (String.mk ('0' :: ':' :: m1 :: m2 :: ' ' :: ['A', 'M'])) =
      String.mk ('0' :: '0' :: ':' :: [m1, m2]) := by
  have ea : isDigitChar a = true := by simp [isDigitChar, ha]
  have eb : isDigitChar b = true := by simp [isDigitChar, hb]
  constructor
  · unfold parse12HourTime
    refine congrArg String.mk ?_
    rw [data_mk]
    have hbuild := @match12_build [a, b] m1 m2 ['P', 'M'] (by simp) (by simp)
      (by intro c hc; simp at hc; rcases hc with rfl | rfl <;> assumption)
      hm1 hm2 (Or.inr rfl)
    rw [digitsVal_pair ha hb, decide_pm_pm] at hbuild
    simp only [List.cons_append, List.nil_append] at hbuild
    unfold parse12C
    rw [trimChars_noop
      (by intro c hc; cases hc; exact (digit_classes ea).1)
      (by
        intro c hc
        rw [show (a :: b :: ':' :: m1 :: m2 :: ' ' :: ['P', 'M'] : List Char)
              = (a :: b :: ':' :: m1 :: m2 :: [' ', 'P']) ++ ['M'] by simp,
          List.getLast?_concat] at hc
        cases hc
        decide)]
    rw [hbuild]
    show padStart2 (natToChars
        (if (true && decide (10 * da + db < 12)) = true then 10 * da + db + 12
         else if (!true && decide (10 * da + db = 12)) = true then 0
         else 10 * da + db)) ++ ':' :: [m1, m2] = [a, b, ':', m1, m2]
    rw [if_neg (by simp; omega)]
    rw [if_neg (by simp)]
    rw [padStart2_natToChars ha hb]
    simp
  · unfold parse12HourTime
    refine congrArg String.mk ?_
    rw [data_mk]
    have hbuild := @match12_build ['0'] m1 m2 ['A', 'M'] (by simp) (by simp)
      (by decide) hm1 hm2 (Or.inl rfl)
    rw [show digitsVal ['0'] = 0 by decide, decide_am_pm] at hbuild
    simp only [List.cons_append, List.nil_append] at hbuild
    unfold parse12C
    rw [trimChars_noop
      (by intro c hc; cases hc; decide)
      (by
        intro c hc
        rw [show ('0' :: ':' :: m1 :: m2 :: ' ' :: ['A', 'M'] : List Char)
              = ('0' :: ':' :: m1 :: m2 :: [' ', 'A']) ++ ['M'] by simp,
          List.getLast?_concat] at hc
        cases hc
        decide)]
    rw [hbuild]
    show padStart2 (natToChars
        (if (false && decide ((0 : Nat) < 12)) = true then 0 + 12
         else if (!false && decide ((0 : Nat) = 12)) = true then 0
         else 0)) ++ ':' :: [m1, m2] = ['0', '0', ':', m1, m2]
    rw [if_neg (by simp)]
    rw [if_neg (by simp)]
    rw [show padStart2 (natToChars 0) = ['0', '0'] by decide]
    simp

theorem C10_witness :
    digitVal? '1' = some 1 ∧ digitVal? '3' = some 3 ∧ 13 ≤ 10 * 1 + 3 ∧
    (parse12HourTime (String.mk ('1' :: '3' :: ':' :: '3' :: '0' :: ' ' :: ['P', 'M'])) =
      String.mk ('1' :: '3' :: ':' :: ['3', '0']) ∧
    parse12HourTime (String.mk ('0' :: ':' :: '3' :: '0' :: ' ' :: ['A', 'M'])) =
      String.mk ('0' :: '0' :: ':' :: ['3', '0'])) :=
  ⟨by decide, by decide, by decide,
    C10_parse12_no_hour_range_check '1' '3' '3' '0' 1 3 (by decide) (by decide)
      (by decide) (by decide) (by decide)⟩

end ScheduleBuilder
